import Mathlib

/-!
GraphTheNode: the interaction engine of `src/game.js`.

A shallow embedding of the class `GraphGame` of `src/game.js`: the graph
model (`nodes`, `edges`), the two hit tests (`findNodeAtPosition`,
`findEdgeAtPosition`), the four pointer handlers (`handleMouseDown`,
`handleMouseMove`, `handleMouseUp`, `handleDoubleClick`) and the startup
generation `initializeRandomGraph`.

Modelling conventions.

* Coordinates are exact rationals.  JavaScript numbers are IEEE doubles; the
  embedding computes in exact arithmetic, so `Math.hypot(a, b) <= r` is the
  comparison `a*a + b*b ≤ r*r` (for `0 ≤ r`), see `hypotLe`, `hypotLt` and the
  lemmas `hypotLe_iff_sqrt`, `hypotLt_iff_sqrt`.  Within a rounding error of a
  threshold the code may decide a comparison differently; the theorems take
  the result of a hit test as a hypothesis, or hold for an arbitrary test in
  its place (`findNodeAtPositionWith`, `findEdgeAtPositionWith`).
* JavaScript arrays are lists; `arr[i]` for `i` out of range is `undefined`,
  and reading or writing a property of `undefined` throws a `TypeError`.
  Handlers that can reach such an access return `Except JsError`:
  `Except.error` says that the handler threw before its first write,
  `Except.ok g'` that it reached its last write, leaving the fields `g'`.
* `getMousePos` only translates window coordinates into canvas coordinates;
  each handler takes the translated position `pos` directly.
* `draw`, called last by the handlers, belongs to the rendering side: it reads
  the fields and writes none of them, so it is left out of the embedding.
-/

namespace GraphTheNode

/-! ## Data model -/

/-- A canvas position, the value returned by `getMousePos`. -/
structure Pos where
  x : ℚ
  y : ℚ
  deriving DecidableEq

/-- An element of `this.nodes`: `{ x, y, colorIndex }`. -/
structure Node where
  x : ℚ
  y : ℚ
  colorIndex : Nat
  deriving DecidableEq

/-- An element of `this.edges`: `{ from, to }` (both words are reserved in
Lean, hence `from_` and `to_`). -/
structure Edge where
  from_ : Nat
  to_ : Nat
  deriving DecidableEq

/-- The exception raised by a property access on `undefined`. -/
inductive JsError where
  | typeError
  deriving DecidableEq

/-- The mutable fields of the class `GraphGame` (constructor, lines 5-14).
`null` is `none`. -/
structure GraphGame where
  nodes : List Node
  edges : List Edge
  isDragging : Bool
  draggedNode : Option Nat
  highlightedNode : Option Nat
  deriving DecidableEq

/-- Field `this.nodeRadius = 20`. -/
def nodeRadius : ℚ := 20

/-- Field `this.colors`, the palette. -/
def colors : List String := ["#4CAF50", "#f44336", "#2196F3"]

/-- The literal `10` of line 115, the click tolerance for edges. -/
def edgeTolerance : ℚ := 10

/-- Comparison `Math.hypot(a, b) <= r` in exact arithmetic (`0 ≤ r`). -/
def hypotLe (a b r : ℚ) : Bool := decide (a * a + b * b ≤ r * r)

/-- Comparison `Math.hypot(a, b) < r` in exact arithmetic (`0 ≤ r`). -/
def hypotLt (a b r : ℚ) : Bool := decide (a * a + b * b < r * r)

/-! ## Hit testing -/

/-- The test of lines 74-75 for one node:
`Math.hypot(node.x - pos.x, node.y - pos.y) <= this.nodeRadius`. -/
def nodeHit (pos : Pos) (node : Node) : Bool :=
  hypotLe (node.x - pos.x) (node.y - pos.y) nodeRadius

/-- The loop of `findNodeAtPosition` (lines 72-78) over the remaining nodes,
`i` being the index of the head. -/
def findNodeLoop (pos : Pos) : List Node → Nat → Option Nat
  | [], _ => none
  | node :: rest, i =>
    if nodeHit pos node then some i
    else findNodeLoop pos rest (i + 1)

/-- Method `findNodeAtPosition(pos)` (lines 71-80). -/
def findNodeAtPosition (g : GraphGame) (pos : Pos) : Option Nat :=
  findNodeLoop pos g.nodes 0

/-- Lines 89-112 of `findEdgeAtPosition`: the point `(xx, yy)` of the segment
from `node1` to `node2` that the code measures the distance to. -/
def closestPoint (pos : Pos) (node1 node2 : Node) : ℚ × ℚ :=
  let A := pos.x - node1.x
  let B := pos.y - node1.y
  let C := node2.x - node1.x
  let D := node2.y - node1.y
  let dot := A * C + B * D
  let len_sq := C * C + D * D
  let param : ℚ := if len_sq ≠ 0 then dot / len_sq else -1
  if param < 0 then (node1.x, node1.y)
  else if param > 1 then (node2.x, node2.y)
  else (node1.x + param * C, node1.y + param * D)

/-- The test of line 114-115 for one edge whose endpoint nodes are `node1`
and `node2`: `Math.hypot(pos.x - xx, pos.y - yy) < 10`. -/
def edgeHit (pos : Pos) (node1 node2 : Node) : Bool :=
  hypotLt (pos.x - (closestPoint pos node1 node2).1)
    (pos.y - (closestPoint pos node1 node2).2) edgeTolerance

/-- The loop of `findEdgeAtPosition` (lines 83-118) over the remaining edges,
`i` being the index of the head.  `nodes[edge.from]` or `nodes[edge.to]` out
of range is `undefined`, whose `.x` throws. -/
def findEdgeLoop (nodes : List Node) (pos : Pos) :
    List Edge → Nat → Except JsError (Option Nat)
  | [], _ => .ok none
  | edge :: rest, i =>
    match nodes[edge.from_]?, nodes[edge.to_]? with
    | some node1, some node2 =>
      if edgeHit pos node1 node2 then .ok (some i)
      else findEdgeLoop nodes pos rest (i + 1)
    | _, _ => .error JsError.typeError

/-- Method `findEdgeAtPosition(pos)` (lines 82-120). -/
def findEdgeAtPosition (g : GraphGame) (pos : Pos) : Except JsError (Option Nat) :=
  findEdgeLoop g.nodes pos g.edges 0

/-! ## Pointer handlers -/

/-- The predicate passed to `this.edges.some` at lines 136-138. -/
def edgeBetween (h n : Nat) (edge : Edge) : Bool :=
  (edge.from_ == h && edge.to_ == n) || (edge.from_ == n && edge.to_ == h)

/-- Lines 135-144: the edge list after the second node click, `h` being the
highlighted node and `n` the clicked one. -/
def addEdge (edges : List Edge) (h n : Nat) : List Edge :=
  if h ≠ n then
    if !(edges.any (edgeBetween h n)) then edges ++ [{ from_ := min h n, to_ := max h n }]
    else edges
  else edges

/-- Method `handleMouseDown(e)` (lines 122-161).  Both hit tests run first
(lines 124-125), so a throwing `findEdgeAtPosition` aborts the handler before
any field is written. -/
def handleMouseDown (g : GraphGame) (pos : Pos) : Except JsError GraphGame :=
  match findEdgeAtPosition g pos with
  | .error err => .error err
  | .ok edgeIndex =>
    match findNodeAtPosition g pos with
    | some nodeIndex =>
      match g.highlightedNode with
      | none =>
        .ok { g with highlightedNode := some nodeIndex, isDragging := true,
                     draggedNode := some nodeIndex }
      | some h =>
        .ok { g with edges := addEdge g.edges h nodeIndex, highlightedNode := none }
    | none =>
      match edgeIndex with
      | some k => .ok { g with edges := g.edges.eraseIdx k, highlightedNode := none }
      | none =>
        .ok { g with nodes := g.nodes ++ [{ x := pos.x, y := pos.y, colorIndex := 0 }],
                     highlightedNode := none }

/-- Method `handleMouseMove(e)` (lines 163-170).  `this.nodes[draggedNode]`
out of range is `undefined`, and the assignment to its `.x` throws before
anything is written. -/
def handleMouseMove (g : GraphGame) (pos : Pos) : Except JsError GraphGame :=
  match g.isDragging, g.draggedNode with
  | true, some d =>
    match g.nodes[d]? with
    | some node => .ok { g with nodes := g.nodes.set d { node with x := pos.x, y := pos.y } }
    | none => .error JsError.typeError
  | _, _ => .ok g

/-- Method `handleMouseUp(e)` (lines 172-175); the event is not read. -/
def handleMouseUp (g : GraphGame) : GraphGame :=
  { g with isDragging := false, draggedNode := none }

/-- Method `handleDoubleClick(e)` (lines 177-184). -/
def handleDoubleClick (g : GraphGame) (pos : Pos) : Except JsError GraphGame :=
  match findNodeAtPosition g pos with
  | some nodeIndex =>
    match g.nodes[nodeIndex]? with
    | some node =>
      .ok { g with nodes :=
              g.nodes.set nodeIndex { node with colorIndex := (node.colorIndex + 1) % colors.length } }
    | none => .error JsError.typeError
  | none => .ok g

/-- The four listeners registered on the canvas (lines 22-27). -/
inductive Event where
  | mouseDown (pos : Pos)
  | mouseMove (pos : Pos)
  | mouseUp
  | doubleClick (pos : Pos)

/-- Running the listener of an event. -/
def handle (g : GraphGame) : Event → Except JsError GraphGame
  | .mouseDown pos => handleMouseDown g pos
  | .mouseMove pos => handleMouseMove g pos
  | .mouseUp => .ok (handleMouseUp g)
  | .doubleClick pos => handleDoubleClick g pos

/-- The fields of the object after the host has delivered an event.  A handler
that throws does so before its first write, and leaves the fields as they
were. -/
def dispatch (g : GraphGame) (ev : Event) : GraphGame :=
  match handle g ev with
  | .ok g' => g'
  | .error _ => g

/-- Delivering a sequence of events, oldest first. -/
def run (g : GraphGame) (evs : List Event) : GraphGame :=
  evs.foldl dispatch g

/-- Delivering a sequence of events while no handler throws. -/
def runAll (g : GraphGame) (evs : List Event) : Except JsError GraphGame :=
  evs.foldlM handle g

/-! ## Startup: `initializeRandomGraph`

The values returned by the successive calls of `Math.random()` are given as a
list of draws, consumed from the head; a function returns `none` when the list
ends before it has returned, in particular when a re-draw loop (lines 51-53)
has not left by then. -/

/-- The expression `Math.floor(Math.random() * k)` for the draw `r`. -/
def randomIndex (r : ℚ) (k : Nat) : Nat := (Int.floor (r * k)).toNat

/-- The node loop of lines 40-44 with `count` iterations left, for a canvas of
the given width and height. -/
def generateNodes (width height : ℚ) : Nat → List Node → List ℚ → Option (List Node × List ℚ)
  | 0, nodes, draws => some (nodes, draws)
  | count + 1, nodes, rx :: ry :: draws =>
    generateNodes width height count
      (nodes ++ [{ x := nodeRadius + rx * (width - 2 * nodeRadius),
                   y := nodeRadius + ry * (height - 2 * nodeRadius),
                   colorIndex := 0 }]) draws
  | _ + 1, _, _ => none

/-- Lines 50-53: the draw of `to` and its re-draws while `to === from`. -/
def drawTo (nodeCount from_ : Nat) : List ℚ → Option (Nat × List ℚ)
  | [] => none
  | r :: draws =>
    if randomIndex r nodeCount = from_ then drawTo nodeCount from_ draws
    else some (randomIndex r nodeCount, draws)

/-- Lines 54-58: the guarded `this.edges.push({ from, to })`. -/
def pushIfNew (edges : List Edge) (from_ to_ : Nat) : List Edge :=
  if !(edges.any (edgeBetween from_ to_)) then edges ++ [{ from_ := from_, to_ := to_ }]
  else edges

/-- The edge loop of lines 48-59 with `count` iterations left. -/
def generateEdges (nodeCount : Nat) : Nat → List Edge → List ℚ → Option (List Edge × List ℚ)
  | 0, edges, draws => some (edges, draws)
  | _ + 1, _, [] => none
  | count + 1, edges, r :: draws =>
    match drawTo nodeCount (randomIndex r nodeCount) draws with
    | none => none
    | some (to_, rest) =>
      generateEdges nodeCount count (pushIfNew edges (randomIndex r nodeCount) to_) rest

/-- The pairs `(from, to)` that the iterations of the edge loop draw at lines
49-53, one pair per iteration, with `count` iterations left. -/
def attempts (nodeCount : Nat) : Nat → List ℚ → Option (List (Nat × Nat) × List ℚ)
  | 0, draws => some ([], draws)
  | _ + 1, [] => none
  | count + 1, r :: draws =>
    match drawTo nodeCount (randomIndex r nodeCount) draws with
    | none => none
    | some (to_, rest) =>
      match attempts nodeCount count rest with
      | none => none
      | some (pairs, rest') => some ((randomIndex r nodeCount, to_) :: pairs, rest')

/-- Lines 46-59: the draw of `edgeCount` followed by the edge loop. -/
def generateRandomEdges (nodeCount : Nat) (edges : List Edge) :
    List ℚ → Option (List Edge × List ℚ)
  | [] => none
  | r :: draws => generateEdges nodeCount (randomIndex r (nodeCount * 2) + 1) edges draws

/-- Method `initializeRandomGraph()` (lines 37-61) on a canvas of the given
width and height. -/
def initializeRandomGraph (g : GraphGame) (width height : ℚ) :
    List ℚ → Option (GraphGame × List ℚ)
  | [] => none
  | r :: draws =>
    match generateNodes width height (randomIndex r 5 + 3) g.nodes draws with
    | none => none
    | some (nodes, draws1) =>
      match generateRandomEdges (randomIndex r 5 + 3) g.edges draws1 with
      | none => none
      | some (edges, rest) => some ({ g with nodes := nodes, edges := edges }, rest)

/-- The fields as the constructor sets them (lines 5-12) before it calls
`initializeRandomGraph`. -/
def emptyGame : GraphGame :=
  { nodes := [], edges := [], isDragging := false, draggedNode := none, highlightedNode := none }

/-- The states of a session.  The constructor (lines 5-18) builds the first
one by `initializeRandomGraph` on the empty fields, from values of
`Math.random()` in [0,1); each event the host delivers gives the next. -/
inductive Reachable : GraphGame → Prop where
  | init (width height : ℚ) (draws : List ℚ) (g : GraphGame) (rest : List ℚ) :
      (∀ x ∈ draws, 0 ≤ x ∧ x < 1) →
      initializeRandomGraph emptyGame width height draws = some (g, rest) → Reachable g
  | step (g : GraphGame) (ev : Event) : Reachable g → Reachable (dispatch g ev)

/-! ## Model invariants (section 3 of the specification) -/

/-- Every edge's `from` and `to` are indices into `nodes`. -/
def ValidEndpoints (g : GraphGame) : Prop :=
  ∀ e ∈ g.edges, e.from_ < g.nodes.length ∧ e.to_ < g.nodes.length

/-- No edge has `from = to`. -/
def NoSelfLoop (g : GraphGame) : Prop :=
  ∀ e ∈ g.edges, e.from_ ≠ e.to_

/-- Edge `e` joins the nodes `a` and `b`, in either orientation. -/
def Joins (a b : Nat) (e : Edge) : Prop :=
  (e.from_ = a ∧ e.to_ = b) ∨ (e.from_ = b ∧ e.to_ = a)

/-- Edges `e` and `f` join the same unordered pair of nodes. -/
def SamePair (e f : Edge) : Prop :=
  Joins e.from_ e.to_ f

/-- No two positions of the edge list join the same unordered pair. -/
def NoParallel (g : GraphGame) : Prop :=
  g.edges.Pairwise (fun e f => ¬ SamePair e f)

/-- Field `highlightedNode` is `null` or an index into `nodes`. -/
def HighlightValid (g : GraphGame) : Prop :=
  ∀ h, g.highlightedNode = some h → h < g.nodes.length

/-- Field `draggedNode` is `null` or an index into `nodes`. -/
def DragValid (g : GraphGame) : Prop :=
  ∀ d, g.draggedNode = some d → d < g.nodes.length

/-- Session-state well-formedness: the drag flag is set exactly when there is
a drag target, drag target and highlight are `null` or node indices, and every
colour index is an index into the palette. -/
def SessionInv (g : GraphGame) : Prop :=
  (g.isDragging = true ↔ g.draggedNode ≠ none) ∧ DragValid g ∧ HighlightValid g ∧
    ∀ n ∈ g.nodes, n.colorIndex < 3

/-- One event's effect on the node list keeps every index on its node: the
list is unchanged, or one existing position is updated in place, or one node is
appended at the end. -/
def NodesStep (l l' : List Node) : Prop :=
  l' = l ∨ (∃ i n, i < l.length ∧ l' = l.set i n) ∨ ∃ n, l' = l ++ [n]

/-- A generated node has colour 0 and its whole circle of radius 20 lies on a
canvas of the given width and height. -/
def NodeInRange (width height : ℚ) (n : Node) : Prop :=
  n.colorIndex = 0 ∧ 20 ≤ n.x ∧ n.x ≤ width - 20 ∧ 20 ≤ n.y ∧ n.y ≤ height - 20

/-- The edges have endpoints below `n`, no self-loop and no two of them join
the same unordered pair. -/
def EdgesOK (n : Nat) (edges : List Edge) : Prop :=
  (∀ e ∈ edges, e.from_ < n ∧ e.to_ < n ∧ e.from_ ≠ e.to_) ∧
    edges.Pairwise (fun e f => ¬ SamePair e f)

/-- Consecutive draws give different indices below `n`, so that no re-draw
loop repeats. -/
def NoRepeat (n : Nat) (draws : List ℚ) : Prop :=
  draws.Chain' (fun a b => randomIndex a n ≠ randomIndex b n)

/-- The edge-set invariant together with a valid highlight. -/
def WellFormed (g : GraphGame) : Prop :=
  NoSelfLoop g ∧ ValidEndpoints g ∧ NoParallel g ∧ HighlightValid g

instance (a b : Nat) (e : Edge) : Decidable (Joins a b e) := by
  unfold Joins; infer_instance

instance (e f : Edge) : Decidable (SamePair e f) := by
  unfold SamePair; infer_instance

instance (g : GraphGame) : Decidable (ValidEndpoints g) := by
  unfold ValidEndpoints; infer_instance

instance (g : GraphGame) : Decidable (NoSelfLoop g) := by
  unfold NoSelfLoop; infer_instance

instance (g : GraphGame) : Decidable (NoParallel g) := by
  unfold NoParallel; infer_instance

instance (g : GraphGame) : Decidable (HighlightValid g) := by
  unfold HighlightValid
  cases h : g.highlightedNode with
  | none => exact isTrue (by simp)
  | some v =>
    by_cases hv : v < g.nodes.length
    · exact isTrue (by intro k hk; cases hk; exact hv)
    · exact isFalse (by intro hall; exact hv (hall v rfl))

instance (g : GraphGame) : Decidable (WellFormed g) := by
  unfold WellFormed; infer_instance

/-! ## Proof devices -/

/-- Proof device: the index of the first element of `l` satisfying `p`, the
head having index `k`.  Both hit-test loops compute it. -/
def firstHit {α : Type} (p : α → Bool) : List α → Nat → Option Nat
  | [], _ => none
  | a :: rest, k => if p a then some k else firstHit p rest (k + 1)

/-- The test of `findEdgeAtPosition` for one edge of a state whose endpoint
lookups succeed (`false` when a lookup fails). -/
def edgeHitIn (nodes : List Node) (pos : Pos) (e : Edge) : Bool :=
  match nodes[e.from_]?, nodes[e.to_]? with
  | some node1, some node2 => edgeHit pos node1 node2
  | _, _ => false

/-! ## The searches with the distance test as a parameter

Lines 74-75 and 89-115 compute on IEEE doubles; `nodeHit` and `edgeHit` are
these tests in exact arithmetic, and within a rounding error of the threshold
the code may decide differently.  What depends only on the order of the search
is therefore stated for the loops with an arbitrary test in their place. -/

/-- The loop of `findNodeAtPosition` (lines 72-78) with the test of lines
74-75 given as `hit`. -/
def findNodeLoopWith (hit : Pos → Node → Bool) (pos : Pos) : List Node → Nat → Option Nat
  | [], _ => none
  | node :: rest, i =>
    if hit pos node then some i
    else findNodeLoopWith hit pos rest (i + 1)

/-- Method `findNodeAtPosition(pos)` with the test of lines 74-75 given as
`hit`. -/
def findNodeAtPositionWith (hit : Pos → Node → Bool) (g : GraphGame) (pos : Pos) : Option Nat :=
  findNodeLoopWith hit pos g.nodes 0

/-- The loop of `findEdgeAtPosition` (lines 83-118) with the test of lines
89-115 given as `ehit`. -/
def findEdgeLoopWith (ehit : Pos → Node → Node → Bool) (nodes : List Node) (pos : Pos) :
    List Edge → Nat → Except JsError (Option Nat)
  | [], _ => .ok none
  | edge :: rest, i =>
    match nodes[edge.from_]?, nodes[edge.to_]? with
    | some node1, some node2 =>
      if ehit pos node1 node2 then .ok (some i)
      else findEdgeLoopWith ehit nodes pos rest (i + 1)
    | _, _ => .error JsError.typeError

/-- Method `findEdgeAtPosition(pos)` with the test of lines 89-115 given as
`ehit`. -/
def findEdgeAtPositionWith (ehit : Pos → Node → Node → Bool) (g : GraphGame) (pos : Pos) :
    Except JsError (Option Nat) :=
  findEdgeLoopWith ehit g.nodes pos g.edges 0

/-- The test `ehit` for one edge of a state whose endpoint lookups succeed
(`false` when a lookup fails). -/
def edgeTestIn (ehit : Pos → Node → Node → Bool) (nodes : List Node) (pos : Pos) (e : Edge) :
    Bool :=
  match nodes[e.from_]?, nodes[e.to_]? with
  | some node1, some node2 => ehit pos node1 node2
  | _, _ => false

/-! ## Hit testing: the loops -/

theorem firstHit_eq_some_iff {α : Type} (p : α → Bool) (l : List α) (k i : Nat) :
    firstHit p l k = some i ↔
      ∃ j n, i = k + j ∧ l[j]? = some n ∧ p n = true ∧
        ∀ j' m, j' < j → l[j']? = some m → p m = false := by
  induction l generalizing k with
  | nil => simp [firstHit]
  | cons a rest ih =>
    unfold firstHit
    cases ha : p a with
    | true =>
      simp only [if_true, Option.some.injEq]
      constructor
      · intro hk
        exact ⟨0, a, by omega, by simp, ha, fun j' m hj' => absurd hj' (Nat.not_lt_zero _)⟩
      · rintro ⟨j, n, hi, _, _, hlow⟩
        cases j with
        | zero => omega
        | succ j =>
          have := hlow 0 a (Nat.succ_pos j) (by simp)
          simp [ha] at this
    | false =>
      simp only [Bool.false_eq_true, if_false, ih]
      constructor
      · rintro ⟨j, n, hi, hn, hhit, hlow⟩
        refine ⟨j + 1, n, by omega, by simpa using hn, hhit, ?_⟩
        intro j' m hj' hm
        cases j' with
        | zero => simp at hm; subst hm; exact ha
        | succ j' => exact hlow j' m (by omega) (by simpa using hm)
      · rintro ⟨j, n, hi, hn, hhit, hlow⟩
        cases j with
        | zero =>
          simp at hn; subst hn
          simp [ha] at hhit
        | succ j =>
          refine ⟨j, n, by omega, by simpa using hn, hhit, ?_⟩
          intro j' m hj' hm
          exact hlow (j' + 1) m (by omega) (by simpa using hm)

theorem firstHit_eq_none_iff {α : Type} (p : α → Bool) (l : List α) (k : Nat) :
    firstHit p l k = none ↔ ∀ n ∈ l, p n = false := by
  induction l generalizing k with
  | nil => simp [firstHit]
  | cons a rest ih =>
    unfold firstHit
    cases ha : p a with
    | true => simp [ha]
    | false => simp [ha, ih]

theorem firstHit_zero_eq_some_iff {α : Type} (p : α → Bool) (l : List α) (i : Nat) :
    firstHit p l 0 = some i ↔
      ∃ n, l[i]? = some n ∧ p n = true ∧ ∀ j m, j < i → l[j]? = some m → p m = false := by
  rw [firstHit_eq_some_iff]
  constructor
  · rintro ⟨j, n, hi, hn, hhit, hlow⟩
    have hij : i = j := by omega
    subst hij
    exact ⟨n, hn, hhit, hlow⟩
  · rintro ⟨n, hn, hhit, hlow⟩
    exact ⟨i, n, by omega, hn, hhit, hlow⟩

/-- If some element at index `i` satisfies `p`, the search succeeds at an
index `j ≤ i`, and `j = i` exactly when no earlier element satisfies `p`. -/
theorem firstHit_of_hit {α : Type} (p : α → Bool) (l : List α) (i : Nat) (n : α)
    (hn : l[i]? = some n) (hp : p n = true) :
    ∃ j, j ≤ i ∧ firstHit p l 0 = some j ∧
      (j = i ↔ ∀ k m, k < i → l[k]? = some m → p m = false) := by
  cases hf : firstHit p l 0 with
  | none =>
    have := (firstHit_eq_none_iff p l 0).1 hf n (List.mem_iff_getElem?.2 ⟨i, hn⟩)
    simp [hp] at this
  | some j =>
    obtain ⟨m, hm, hpm, hlow⟩ := (firstHit_zero_eq_some_iff p l j).1 hf
    have hji : j ≤ i := by
      by_contra hlt
      have := hlow i n (by omega) hn
      simp [hp] at this
    refine ⟨j, hji, rfl, ?_⟩
    constructor
    · rintro rfl
      exact hlow
    · intro hall
      by_contra hne
      have := hall j m (by omega) hm
      simp [hpm] at this

theorem findNodeLoop_eq_firstHit (pos : Pos) (l : List Node) (k : Nat) :
    findNodeLoop pos l k = firstHit (nodeHit pos) l k := by
  induction l generalizing k with
  | nil => rfl
  | cons a rest ih => simp [findNodeLoop, firstHit, ih]

theorem findEdgeLoop_eq_firstHit (nodes : List Node) (pos : Pos) (l : List Edge) (k : Nat)
    (hv : ∀ e ∈ l, e.from_ < nodes.length ∧ e.to_ < nodes.length) :
    findEdgeLoop nodes pos l k = .ok (firstHit (edgeHitIn nodes pos) l k) := by
  induction l generalizing k with
  | nil => rfl
  | cons a rest ih =>
    have ha := hv a (List.mem_cons_self _ _)
    have hrest : ∀ e ∈ rest, e.from_ < nodes.length ∧ e.to_ < nodes.length :=
      fun e he => hv e (List.mem_cons_of_mem _ he)
    have h1 : nodes[a.from_]? = some nodes[a.from_] := List.getElem?_eq_getElem ha.1
    have h2 : nodes[a.to_]? = some nodes[a.to_] := List.getElem?_eq_getElem ha.2
    have h3 : edgeHitIn nodes pos a = edgeHit pos nodes[a.from_] nodes[a.to_] := by
      simp only [edgeHitIn, h1, h2]
    rw [findEdgeLoop, firstHit, h3, h1, h2]
    simp only [ih (k + 1) hrest]
    cases edgeHit pos nodes[a.from_] nodes[a.to_] <;> simp

theorem findEdgeAtPosition_ok (g : GraphGame) (pos : Pos) (hv : ValidEndpoints g) :
    findEdgeAtPosition g pos = .ok (firstHit (edgeHitIn g.nodes pos) g.edges 0) :=
  findEdgeLoop_eq_firstHit g.nodes pos g.edges 0 hv

theorem firstHit_lt {α : Type} (p : α → Bool) (l : List α) (i : Nat)
    (h : firstHit p l 0 = some i) : i < l.length := by
  obtain ⟨n, hn, _⟩ := (firstHit_zero_eq_some_iff p l i).1 h
  exact (List.getElem?_eq_some_iff.1 hn).1

theorem findNodeAtPosition_eq_firstHit (g : GraphGame) (pos : Pos) :
    findNodeAtPosition g pos = firstHit (nodeHit pos) g.nodes 0 :=
  findNodeLoop_eq_firstHit pos g.nodes 0

theorem findNodeAtPosition_eq_some_iff (g : GraphGame) (pos : Pos) (i : Nat) :
    findNodeAtPosition g pos = some i ↔
      ∃ n, g.nodes[i]? = some n ∧ nodeHit pos n = true ∧
        ∀ j m, j < i → g.nodes[j]? = some m → nodeHit pos m = false := by
  rw [findNodeAtPosition_eq_firstHit, firstHit_zero_eq_some_iff]

theorem findNodeAtPosition_eq_none_iff (g : GraphGame) (pos : Pos) :
    findNodeAtPosition g pos = none ↔ ∀ n ∈ g.nodes, nodeHit pos n = false := by
  rw [findNodeAtPosition_eq_firstHit, firstHit_eq_none_iff]

theorem findNodeAtPosition_lt (g : GraphGame) (pos : Pos) (i : Nat)
    (h : findNodeAtPosition g pos = some i) : i < g.nodes.length := by
  obtain ⟨n, hn, _⟩ := (findNodeAtPosition_eq_some_iff g pos i).1 h
  exact (List.getElem?_eq_some_iff.1 hn).1

/-! ## The handlers preserve the model invariants -/

theorem edgeBetween_iff (h n : Nat) (e : Edge) : edgeBetween h n e = true ↔ Joins h n e := by
  simp [edgeBetween, Joins]

theorem any_edgeBetween_iff (edges : List Edge) (h n : Nat) :
    edges.any (edgeBetween h n) = true ↔ ∃ e ∈ edges, Joins h n e := by
  simp [List.any_eq_true, edgeBetween_iff]

/-- The two outcomes of lines 135-144. -/
theorem addEdge_cases (edges : List Edge) (h n : Nat) :
    (addEdge edges h n = edges ∧ (h = n ∨ ∃ e ∈ edges, Joins h n e)) ∨
    (addEdge edges h n = edges ++ [{ from_ := min h n, to_ := max h n }] ∧ h ≠ n ∧
      ¬ ∃ e ∈ edges, Joins h n e) := by
  unfold addEdge
  by_cases hn : h = n
  · left; simp [hn]
  · cases hany : edges.any (edgeBetween h n) with
    | true =>
      left
      exact ⟨by simp [hn], Or.inr ((any_edgeBetween_iff edges h n).1 hany)⟩
    | false =>
      right
      refine ⟨by simp [hn], hn, ?_⟩
      intro hex
      have := (any_edgeBetween_iff edges h n).2 hex
      simp [hany] at this

theorem wellFormed_addEdge (g : GraphGame) (h n : Nat) (hw : WellFormed g)
    (hh : h < g.nodes.length) (hn : n < g.nodes.length) :
    WellFormed { g with edges := addEdge g.edges h n, highlightedNode := none } := by
  obtain ⟨hloop, hvalid, hpar, _⟩ := hw
  rcases addEdge_cases g.edges h n with ⟨heq, _⟩ | ⟨heq, hne, hnone⟩
  · rw [heq]
    exact ⟨hloop, hvalid, hpar, by intro k hk; simp at hk⟩
  · rw [heq]
    refine ⟨?_, ?_, ?_, by intro k hk; simp at hk⟩
    · intro e he
      rcases List.mem_append.1 he with he | he
      · exact hloop e he
      · simp at he; subst he
        show min h n ≠ max h n
        omega
    · intro e he
      rcases List.mem_append.1 he with he | he
      · exact hvalid e he
      · simp at he; subst he
        show min h n < g.nodes.length ∧ max h n < g.nodes.length
        omega
    · show List.Pairwise _ (g.edges ++ [_])
      rw [List.pairwise_append]
      refine ⟨hpar, List.pairwise_singleton _ _, ?_⟩
      intro e he f hf
      simp at hf; subst hf
      intro hsame
      apply hnone
      refine ⟨e, he, ?_⟩
      simp only [SamePair, Joins] at hsame ⊢
      omega

theorem wellFormed_eraseIdx (g : GraphGame) (k : Nat) (hw : WellFormed g) :
    WellFormed { g with edges := g.edges.eraseIdx k, highlightedNode := none } := by
  obtain ⟨hloop, hvalid, hpar, _⟩ := hw
  have hsub : (g.edges.eraseIdx k).Sublist g.edges := List.eraseIdx_sublist _ _
  refine ⟨fun e he => hloop e (hsub.subset he), fun e he => hvalid e (hsub.subset he),
    List.Pairwise.sublist hsub hpar, by intro k hk; simp at hk⟩

theorem wellFormed_push (g : GraphGame) (node : Node) (hw : WellFormed g) :
    WellFormed { g with nodes := g.nodes ++ [node], highlightedNode := none } := by
  obtain ⟨hloop, hvalid, hpar, _⟩ := hw
  refine ⟨hloop, ?_, hpar, by intro k hk; simp at hk⟩
  intro e he
  have := hvalid e he
  simp only [List.length_append, List.length_singleton]
  omega

theorem wellFormed_setNode (g : GraphGame) (i : Nat) (node : Node) (hw : WellFormed g) :
    WellFormed { g with nodes := g.nodes.set i node } := by
  obtain ⟨hloop, hvalid, hpar, hhl⟩ := hw
  refine ⟨hloop, ?_, hpar, ?_⟩
  · intro e he
    simpa using hvalid e he
  · intro k hk
    simpa using hhl k hk

/-- Under valid endpoints `handleMouseDown` does not throw; its result by
cases on the two hit tests and the highlight. -/
theorem handleMouseDown_eq (g : GraphGame) (pos : Pos) (hv : ValidEndpoints g) :
    handleMouseDown g pos = .ok
      (match findNodeAtPosition g pos with
       | some nodeIndex =>
         match g.highlightedNode with
         | none => { g with highlightedNode := some nodeIndex, isDragging := true,
                            draggedNode := some nodeIndex }
         | some h => { g with edges := addEdge g.edges h nodeIndex, highlightedNode := none }
       | none =>
         match firstHit (edgeHitIn g.nodes pos) g.edges 0 with
         | some k => { g with edges := g.edges.eraseIdx k, highlightedNode := none }
         | none => { g with nodes := g.nodes ++ [{ x := pos.x, y := pos.y, colorIndex := 0 }],
                            highlightedNode := none }) := by
  unfold handleMouseDown
  rw [findEdgeAtPosition_ok g pos hv]
  cases findNodeAtPosition g pos with
  | some nodeIndex => cases g.highlightedNode <;> rfl
  | none => cases firstHit (edgeHitIn g.nodes pos) g.edges 0 <;> rfl

theorem wellFormed_handleMouseDown (g g' : GraphGame) (pos : Pos) (hw : WellFormed g)
    (h : handleMouseDown g pos = .ok g') : WellFormed g' := by
  rw [handleMouseDown_eq g pos hw.2.1] at h
  cases hn : findNodeAtPosition g pos with
  | some n =>
    have hlt := findNodeAtPosition_lt g pos n hn
    cases hh : g.highlightedNode with
    | none =>
      simp only [hn, hh, Except.ok.injEq] at h
      subst h
      obtain ⟨hloop, hvalid, hpar, _⟩ := hw
      exact ⟨hloop, hvalid, hpar, by intro k hk; simp at hk; subst hk; exact hlt⟩
    | some a =>
      simp only [hn, hh, Except.ok.injEq] at h
      subst h
      exact wellFormed_addEdge g a n hw (hw.2.2.2 a hh) hlt
  | none =>
    cases he : firstHit (edgeHitIn g.nodes pos) g.edges 0 with
    | some k =>
      simp only [hn, he, Except.ok.injEq] at h
      subst h
      exact wellFormed_eraseIdx g k hw
    | none =>
      simp only [hn, he, Except.ok.injEq] at h
      subst h
      exact wellFormed_push g _ hw

theorem wellFormed_handleMouseMove (g g' : GraphGame) (pos : Pos) (hw : WellFormed g)
    (h : handleMouseMove g pos = .ok g') : WellFormed g' := by
  unfold handleMouseMove at h
  split at h
  · split at h
    · simp only [Except.ok.injEq] at h
      subst h
      exact wellFormed_setNode g _ _ hw
    · simp at h
  · simp only [Except.ok.injEq] at h
    subst h
    exact hw

theorem wellFormed_handleMouseUp (g : GraphGame) (hw : WellFormed g) :
    WellFormed (handleMouseUp g) := hw

theorem wellFormed_handleDoubleClick (g g' : GraphGame) (pos : Pos) (hw : WellFormed g)
    (h : handleDoubleClick g pos = .ok g') : WellFormed g' := by
  unfold handleDoubleClick at h
  split at h
  · split at h
    · simp only [Except.ok.injEq] at h
      subst h
      exact wellFormed_setNode g _ _ hw
    · simp at h
  · simp only [Except.ok.injEq] at h
    subst h
    exact hw

theorem wellFormed_handle (g g' : GraphGame) (ev : Event) (hw : WellFormed g)
    (h : handle g ev = .ok g') : WellFormed g' := by
  cases ev with
  | mouseDown pos => exact wellFormed_handleMouseDown g g' pos hw h
  | mouseMove pos => exact wellFormed_handleMouseMove g g' pos hw h
  | mouseUp =>
    simp only [handle, Except.ok.injEq] at h
    subst h
    exact wellFormed_handleMouseUp g hw
  | doubleClick pos => exact wellFormed_handleDoubleClick g g' pos hw h

theorem wellFormed_dispatch (g : GraphGame) (ev : Event) (hw : WellFormed g) :
    WellFormed (dispatch g ev) := by
  unfold dispatch
  cases h : handle g ev with
  | ok g' => exact wellFormed_handle g g' ev hw h
  | error err => exact hw

theorem handleDoubleClick_isOk (g : GraphGame) (pos : Pos) :
    handleDoubleClick g pos = .ok (dispatch g (.doubleClick pos)) := by
  cases h : handleDoubleClick g pos with
  | ok g' => simp [dispatch, handle, h]
  | error err =>
    exfalso
    unfold handleDoubleClick at h
    cases hn : findNodeAtPosition g pos with
    | none => simp [hn] at h
    | some i =>
      have hlt := findNodeAtPosition_lt g pos i hn
      simp [hn, List.getElem?_eq_getElem hlt] at h

theorem handleMouseDown_isOk (g : GraphGame) (pos : Pos) (hv : ValidEndpoints g) :
    handleMouseDown g pos = .ok (dispatch g (.mouseDown pos)) := by
  simp only [dispatch, handle, handleMouseDown_eq g pos hv]

/-- The index form of `NoParallel`: two different positions of the edge list
never join the same unordered pair. -/
theorem noParallel_iff_index (g : GraphGame) :
    NoParallel g ↔ ∀ (i j : Nat) (e f : Edge), i < j → g.edges[i]? = some e → g.edges[j]? = some f →
      ¬ SamePair e f := by
  unfold NoParallel
  rw [List.pairwise_iff_getElem]
  constructor
  · intro h i j e f hij he hf
    obtain ⟨hi, rfl⟩ := List.getElem?_eq_some_iff.1 he
    obtain ⟨hj, rfl⟩ := List.getElem?_eq_some_iff.1 hf
    exact h i j hi hj hij
  · intro h i j hi hj hij
    exact h i j _ _ hij (List.getElem?_eq_getElem hi) (List.getElem?_eq_getElem hj)

/-! ## C1: the edge-set invariant -/

/-- C1.  In a state with no self-loop, valid edge endpoints, no two edges
joining the same unordered pair and a highlight that is `null` or a valid
index, every pointer event (mouse down, move, up, double click, at any
position) leaves a state with no self-loop, no parallel edge and valid
endpoints.  The handler completes its update, except that `handleMouseMove`
throws (before writing anything) when the drag target is not a node index. -/
theorem edge_invariant_preserved (g : GraphGame) (ev : Event) (hw : WellFormed g) :
    NoSelfLoop (dispatch g ev) ∧ NoParallel (dispatch g ev) ∧ ValidEndpoints (dispatch g ev) ∧
      (handle g ev = .ok (dispatch g ev) ∨
        ∃ pos d, ev = .mouseMove pos ∧ g.draggedNode = some d ∧ g.nodes.length ≤ d ∧
          dispatch g ev = g) := by
  have h := wellFormed_dispatch g ev hw
  refine ⟨h.1, h.2.2.1, h.2.1, ?_⟩
  cases ev with
  | mouseDown pos => exact Or.inl (handleMouseDown_isOk g pos hw.2.1)
  | mouseUp => exact Or.inl rfl
  | doubleClick pos => exact Or.inl (handleDoubleClick_isOk g pos)
  | mouseMove pos =>
    unfold dispatch
    cases hm : handle g (.mouseMove pos) with
    | ok g' => exact Or.inl rfl
    | error err =>
      right
      simp only [handle, handleMouseMove] at hm
      split at hm
      · rename_i d hdrag hd
        split at hm
        · simp at hm
        · rename_i hnone
          exact ⟨pos, _, rfl, hd, by simpa using hnone, rfl⟩
      · simp at hm

/-- C1 at a state with one highlighted node, on the click that creates the
first edge. -/
theorem edge_invariant_preserved_witness :
    WellFormed ⟨[⟨0, 0, 0⟩, ⟨100, 0, 0⟩], [], false, none, some 0⟩ ∧
      NoSelfLoop (dispatch ⟨[⟨0, 0, 0⟩, ⟨100, 0, 0⟩], [], false, none, some 0⟩
        (.mouseDown ⟨100, 0⟩)) :=
  ⟨by decide, (edge_invariant_preserved _ _ (by decide)).1⟩

/-! ## C3: edge creation on the second node click -/

/-- C3.  In a well-formed state with `highlightedNode = a`, a mouse down at a
point that hits a node `b ≠ a` does not throw; if no edge joins `a` and `b`
in either orientation the edge list becomes the old list with the single edge
`{from: min a b, to: max a b}` appended at the end, otherwise the edge list is
unchanged; in both cases the highlight becomes `null` and the node list is
unchanged. -/
theorem second_click_creates_edge (g : GraphGame) (p : Pos) (a b : Nat)
    (hw : WellFormed g) (hh : g.highlightedNode = some a)
    (hb : findNodeAtPosition g p = some b) (hne : b ≠ a) :
    ∃ g', handleMouseDown g p = .ok g' ∧
      ((¬ ∃ e ∈ g.edges, Joins a b e) →
        g'.edges = g.edges ++ [{ from_ := min a b, to_ := max a b }]) ∧
      ((∃ e ∈ g.edges, Joins a b e) → g'.edges = g.edges) ∧
      g'.highlightedNode = none ∧ g'.nodes = g.nodes := by
  refine ⟨{ g with edges := addEdge g.edges a b, highlightedNode := none }, ?_, ?_, ?_, rfl, rfl⟩
  · rw [handleMouseDown_eq g p hw.2.1]
    simp only [hb, hh]
  · intro hnone
    rcases addEdge_cases g.edges a b with ⟨_, hab | hex⟩ | ⟨heq, _, _⟩
    · exact absurd hab.symm hne
    · exact absurd hex hnone
    · exact heq
  · intro hex
    rcases addEdge_cases g.edges a b with ⟨heq, _⟩ | ⟨_, _, hnone⟩
    · exact heq
    · exact absurd hex hnone

/-- C3 on the scenario of the specification: nodes at (10,10) and (200,200),
node 0 highlighted, click on node 1. -/
theorem second_click_creates_edge_witness :
    ∃ g', handleMouseDown ⟨[⟨10, 10, 0⟩, ⟨200, 200, 0⟩], [], false, none, some 0⟩ ⟨200, 200⟩
        = .ok g' ∧
      ((¬ ∃ e ∈ ([] : List Edge), Joins 0 1 e) →
        g'.edges = [] ++ [{ from_ := min 0 1, to_ := max 0 1 }]) ∧
      ((∃ e ∈ ([] : List Edge), Joins 0 1 e) → g'.edges = []) ∧
      g'.highlightedNode = none ∧ g'.nodes = [⟨10, 10, 0⟩, ⟨200, 200, 0⟩] :=
  second_click_creates_edge ⟨[⟨10, 10, 0⟩, ⟨200, 200, 0⟩], [], false, none, some 0⟩ ⟨200, 200⟩
    0 1 (by decide)
    rfl (by norm_num [findNodeAtPosition, findNodeLoop, nodeHit, hypotLe, nodeRadius])
    (by decide)

/-! ## C10: a click on empty space creates a node -/

/-- C10.  When a mouse down hits neither a node nor an edge, the handler
returns the old state with exactly one node `{x: p.x, y: p.y, colorIndex: 0}`
appended to the node list (at index `nodes.length`), every existing node and
the edge list unchanged, and the highlight `null`.  On the empty graph a click
at (50,50) gives the single node (50,50) with colour 0. -/
theorem empty_click_creates_node :
    (∀ (g : GraphGame) (p : Pos), findNodeAtPosition g p = none →
      findEdgeAtPosition g p = .ok none →
      ∃ g', handleMouseDown g p = .ok g' ∧
        g'.nodes = g.nodes ++ [{ x := p.x, y := p.y, colorIndex := 0 }] ∧
        g'.nodes.length = g.nodes.length + 1 ∧
        g'.nodes[g.nodes.length]? = some { x := p.x, y := p.y, colorIndex := 0 } ∧
        (∀ i, i < g.nodes.length → g'.nodes[i]? = g.nodes[i]?) ∧
        g'.edges = g.edges ∧ g'.highlightedNode = none ∧
        g'.isDragging = g.isDragging ∧ g'.draggedNode = g.draggedNode) ∧
    handleMouseDown ⟨[], [], false, none, none⟩ ⟨50, 50⟩ =
      .ok ⟨[⟨50, 50, 0⟩], [], false, none, none⟩ := by
  constructor
  · intro g p hn he
    refine ⟨{ g with nodes := g.nodes ++ [{ x := p.x, y := p.y, colorIndex := 0 }],
                     highlightedNode := none }, ?_, rfl, by simp, by simp, ?_, rfl, rfl, rfl, rfl⟩
    · simp only [handleMouseDown, he, hn]
    · intro i hi
      simp [List.getElem?_append_left hi]
  · rfl

/-- C10 on a state with one node, clicking far from it. -/
theorem empty_click_creates_node_witness :
    ∃ g', handleMouseDown ⟨[⟨0, 0, 0⟩], [], false, none, none⟩ ⟨50, 50⟩ = .ok g' ∧
      g'.nodes = [⟨0, 0, 0⟩, ⟨50, 50, 0⟩] := by
  obtain ⟨g', h1, h2, _⟩ := empty_click_creates_node.1
    ⟨[⟨0, 0, 0⟩], [], false, none, none⟩ ⟨50, 50⟩
    (by norm_num [findNodeAtPosition, findNodeLoop, nodeHit, hypotLe, nodeRadius])
    (by simp [findEdgeAtPosition, findEdgeLoop])
  exact ⟨g', h1, h2⟩

/-! ## No self-loop is ever created -/

theorem noSelfLoop_addEdge (edges : List Edge) (h n : Nat)
    (hl : ∀ e ∈ edges, e.from_ ≠ e.to_) : ∀ e ∈ addEdge edges h n, e.from_ ≠ e.to_ := by
  rcases addEdge_cases edges h n with ⟨heq, _⟩ | ⟨heq, hne, _⟩
  · rw [heq]; exact hl
  · rw [heq]
    intro e he
    rcases List.mem_append.1 he with he | he
    · exact hl e he
    · simp at he; subst he
      show min h n ≠ max h n
      omega

/-- The edge list after a `handleMouseDown` that did not throw, in any state. -/
theorem handleMouseDown_edges (g g' : GraphGame) (pos : Pos)
    (h : handleMouseDown g pos = .ok g') :
    g'.edges = g.edges ∨ (∃ a n, g'.edges = addEdge g.edges a n) ∨
      ∃ k, g'.edges = g.edges.eraseIdx k := by
  unfold handleMouseDown at h
  cases he : findEdgeAtPosition g pos with
  | error err => simp [he] at h
  | ok edgeIndex =>
    simp only [he] at h
    cases hn : findNodeAtPosition g pos with
    | some n =>
      cases hh : g.highlightedNode with
      | none =>
        simp only [hn, hh, Except.ok.injEq] at h
        subst h; exact Or.inl rfl
      | some a =>
        simp only [hn, hh, Except.ok.injEq] at h
        subst h; exact Or.inr (Or.inl ⟨a, n, rfl⟩)
    | none =>
      cases edgeIndex with
      | some k =>
        simp only [hn, Except.ok.injEq] at h
        subst h; exact Or.inr (Or.inr ⟨k, rfl⟩)
      | none =>
        simp only [hn, Except.ok.injEq] at h
        subst h; exact Or.inl rfl

theorem handleMouseMove_edges (g g' : GraphGame) (pos : Pos)
    (h : handleMouseMove g pos = .ok g') : g'.edges = g.edges := by
  unfold handleMouseMove at h
  split at h
  · split at h
    · simp only [Except.ok.injEq] at h
      subst h; rfl
    · simp at h
  · simp only [Except.ok.injEq] at h
    subst h; rfl

theorem handleDoubleClick_edges (g g' : GraphGame) (pos : Pos)
    (h : handleDoubleClick g pos = .ok g') : g'.edges = g.edges := by
  unfold handleDoubleClick at h
  split at h
  · split at h
    · simp only [Except.ok.injEq] at h
      subst h; rfl
    · simp at h
  · simp only [Except.ok.injEq] at h
    subst h; rfl

theorem noSelfLoop_dispatch (g : GraphGame) (ev : Event) (hl : NoSelfLoop g) :
    NoSelfLoop (dispatch g ev) := by
  unfold dispatch
  cases h : handle g ev with
  | error err => exact hl
  | ok g' =>
    show ∀ e ∈ g'.edges, e.from_ ≠ e.to_
    cases ev with
    | mouseDown pos =>
      rcases handleMouseDown_edges g g' pos h with heq | ⟨a, n, heq⟩ | ⟨k, heq⟩
      · rw [heq]; exact hl
      · rw [heq]; exact noSelfLoop_addEdge g.edges a n hl
      · rw [heq]
        exact fun e he => hl e ((List.eraseIdx_sublist _ _).subset he)
    | mouseMove pos => rw [handleMouseMove_edges g g' pos h]; exact hl
    | mouseUp =>
      simp only [handle, Except.ok.injEq] at h
      subst h; exact hl
    | doubleClick pos => rw [handleDoubleClick_edges g g' pos h]; exact hl

theorem noSelfLoop_run (g : GraphGame) (evs : List Event) (hl : NoSelfLoop g) :
    NoSelfLoop (run g evs) := by
  induction evs generalizing g with
  | nil => exact hl
  | cons ev rest ih => exact ih (dispatch g ev) (noSelfLoop_dispatch g ev hl)

/-! ## C9: the cyclic colour law -/

/-- Replacing an element by one with the same test value does not change the
search. -/
theorem firstHit_set_congr {α : Type} (p : α → Bool) (l : List α) (i k : Nat) (a b : α)
    (ha : l[i]? = some a) (hab : p b = p a) :
    firstHit p (l.set i b) k = firstHit p l k := by
  induction l generalizing i k with
  | nil => simp
  | cons c rest ih =>
    cases i with
    | zero =>
      simp at ha; subst ha
      simp [firstHit, hab]
    | succ i =>
      simp at ha
      simp [firstHit, ih i (k + 1) ha]

theorem nodeHit_recolor (pos : Pos) (n : Node) (c : Nat) :
    nodeHit pos { n with colorIndex := c } = nodeHit pos n := rfl

theorem handleDoubleClick_eq (g : GraphGame) (p : Pos) (i : Nat) (n : Node)
    (hf : findNodeAtPosition g p = some i) (hn : g.nodes[i]? = some n) :
    handleDoubleClick g p =
      .ok { g with nodes := g.nodes.set i { n with colorIndex := (n.colorIndex + 1) % 3 } } := by
  simp only [handleDoubleClick, hf, hn]
  rfl

theorem findNodeAtPosition_recolor (g : GraphGame) (p : Pos) (i : Nat) (n : Node) (c : Nat)
    (hn : g.nodes[i]? = some n) :
    findNodeAtPosition { g with nodes := g.nodes.set i { n with colorIndex := c } } p =
      findNodeAtPosition g p := by
  rw [findNodeAtPosition_eq_firstHit, findNodeAtPosition_eq_firstHit]
  exact firstHit_set_congr (nodeHit p) g.nodes i 0 n _ hn (nodeHit_recolor p n c)

/-- C9.  The palette has three colours.  When `p` hits node `i`, one double
click at `p` sets node `i`'s `colorIndex` to
`(colorIndex + 1) mod 3`, leaving its position; when moreover the colour index
is 0, 1 or 2, three consecutive double clicks at `p` (none of which throws)
bring node `i` back to its original value. -/
theorem color_cycle (g : GraphGame) (p : Pos) (i : Nat) (n : Node)
    (hf : findNodeAtPosition g p = some i) (hn : g.nodes[i]? = some n)
    (hc : n.colorIndex < 3) :
    colors.length = 3 ∧
    ∃ g1 g2 g3, handleDoubleClick g p = .ok g1 ∧ handleDoubleClick g1 p = .ok g2 ∧
      handleDoubleClick g2 p = .ok g3 ∧
      g1.nodes[i]? = some { n with colorIndex := (n.colorIndex + 1) % 3 } ∧
      g2.nodes[i]? = some { n with colorIndex := (n.colorIndex + 2) % 3 } ∧
      g3.nodes[i]? = some n := by
  have hlt : i < g.nodes.length := (List.getElem?_eq_some_iff.1 hn).1
  let n1 : Node := { n with colorIndex := (n.colorIndex + 1) % 3 }
  let g1 : GraphGame := { g with nodes := g.nodes.set i n1 }
  have hn1 : g1.nodes[i]? = some n1 := by simp [g1, hlt]
  have hf1 : findNodeAtPosition g1 p = some i := by
    rw [findNodeAtPosition_recolor g p i n _ hn]; exact hf
  let n2 : Node := { n1 with colorIndex := (n1.colorIndex + 1) % 3 }
  let g2 : GraphGame := { g1 with nodes := g1.nodes.set i n2 }
  have hlt1 : i < g1.nodes.length := by simp [g1, hlt]
  have hn2 : g2.nodes[i]? = some n2 := by simp [g2, g1, hlt]
  have hf2 : findNodeAtPosition g2 p = some i := by
    rw [findNodeAtPosition_recolor g1 p i n1 _ hn1]; exact hf1
  let n3 : Node := { n2 with colorIndex := (n2.colorIndex + 1) % 3 }
  let g3 : GraphGame := { g2 with nodes := g2.nodes.set i n3 }
  have hlt2 : i < g2.nodes.length := by simp [g2, g1, hlt]
  have hn3 : g3.nodes[i]? = some n3 := by simp [g3, g2, g1, hlt]
  refine ⟨rfl, g1, g2, g3, handleDoubleClick_eq g p i n hf hn,
    handleDoubleClick_eq g1 p i n1 hf1 hn1, handleDoubleClick_eq g2 p i n2 hf2 hn2, hn1, ?_, ?_⟩
  · rw [hn2]
    simp only [n2, n1, Option.some.injEq, Node.mk.injEq, true_and]
    omega
  · rw [hn3]
    cases n with
    | mk x y c =>
      simp only [n3, n2, n1, Option.some.injEq, Node.mk.injEq, true_and]
      simp only at hc
      omega

/-- C9 on the scenario of the specification: node 0 with colour 0, double
clicked at its centre. -/
theorem color_cycle_witness :
    colors.length = 3 ∧
    ∃ g1 g2 g3, handleDoubleClick ⟨[⟨10, 10, 0⟩], [], false, none, none⟩ ⟨10, 10⟩ = .ok g1 ∧
      handleDoubleClick g1 ⟨10, 10⟩ = .ok g2 ∧ handleDoubleClick g2 ⟨10, 10⟩ = .ok g3 ∧
      g1.nodes[0]? = some { (⟨10, 10, 0⟩ : Node) with colorIndex := (0 + 1) % 3 } ∧
      g2.nodes[0]? = some { (⟨10, 10, 0⟩ : Node) with colorIndex := (0 + 2) % 3 } ∧
      g3.nodes[0]? = some ⟨10, 10, 0⟩ :=
  color_cycle ⟨[⟨10, 10, 0⟩], [], false, none, none⟩ ⟨10, 10⟩ 0 ⟨10, 10, 0⟩
    (by norm_num [findNodeAtPosition, findNodeLoop, nodeHit, hypotLe, nodeRadius])
    rfl (by decide)

/-! ## C2: order-independent de-duplication -/

theorem runAll_cons_ok (g g1 : GraphGame) (ev : Event) (evs : List Event)
    (h : handle g ev = .ok g1) : runAll g (ev :: evs) = runAll g1 evs := by
  simp only [runAll, List.foldlM_cons, h]
  rfl

theorem runAll_nil (g : GraphGame) : runAll g [] = .ok g := rfl

theorem joins_symm (a b : Nat) (e : Edge) : Joins a b e ↔ Joins b a e := by
  unfold Joins
  constructor <;> (intro h; exact h.symm)

theorem exists_joins_addEdge (edges : List Edge) (a b : Nat) (hab : a ≠ b) :
    ∃ e ∈ addEdge edges a b, Joins a b e := by
  rcases addEdge_cases edges a b with ⟨heq, h | ⟨e, he, hj⟩⟩ | ⟨heq, _, _⟩
  · exact absurd h hab
  · exact ⟨e, by rw [heq]; exact he, hj⟩
  · refine ⟨{ from_ := min a b, to_ := max a b }, by rw [heq]; simp, ?_⟩
    simp only [Joins]
    omega

theorem addEdge_of_joined (edges : List Edge) (a b : Nat) (h : ∃ e ∈ edges, Joins a b e) :
    addEdge edges a b = edges := by
  rcases addEdge_cases edges a b with ⟨heq, _⟩ | ⟨_, _, hnone⟩
  · exact heq
  · exact absurd h hnone

/-- In a list without parallel edges that contains an edge joining `a` and
`b`, exactly one position joins them. -/
theorem countP_joins_eq_one (l : List Edge) (a b : Nat)
    (hp : l.Pairwise (fun e f => ¬ SamePair e f)) (hex : ∃ e ∈ l, Joins a b e) :
    l.countP (fun e => decide (Joins a b e)) = 1 := by
  induction l with
  | nil => simp at hex
  | cons c rest ih =>
    rw [List.pairwise_cons] at hp
    by_cases hc : Joins a b c
    · have hzero : rest.countP (fun e => decide (Joins a b e)) = 0 := by
        rw [List.countP_eq_zero]
        intro f hf
        simp only [decide_eq_true_eq]
        intro hjf
        apply hp.1 f hf
        simp only [SamePair, Joins] at hc hjf ⊢
        omega
      simp [List.countP_cons, hzero, hc]
    · obtain ⟨e, he, hj⟩ := hex
      rcases List.mem_cons.1 he with rfl | he
      · exact absurd hj hc
      · simp [List.countP_cons, hc, ih hp.2 ⟨e, he, hj⟩]

/-- C2.  In a well-formed state with no highlight, let `pa` hit node `a` and
`pb` hit node `b ≠ a`.  The eight events down(pa), up, down(pb), up (add-edge
a b) and down(pb), up, down(pa), up (add-edge b a) all complete, and
afterwards exactly one position of the edge list joins `a` and `b`, counted in
either orientation.  When an edge between them already existed (stored in
either orientation) the edge list is the old one. -/
theorem add_edge_twice_one_edge (g : GraphGame) (pa pb : Pos) (a b : Nat)
    (hw : WellFormed g) (hh : g.highlightedNode = none)
    (ha : findNodeAtPosition g pa = some a) (hb : findNodeAtPosition g pb = some b)
    (hab : a ≠ b) :
    ∃ g', runAll g [.mouseDown pa, .mouseUp, .mouseDown pb, .mouseUp,
                    .mouseDown pb, .mouseUp, .mouseDown pa, .mouseUp] = .ok g' ∧
      g'.edges.countP (fun e => decide (Joins a b e)) = 1 ∧
      g'.edges = addEdge g.edges a b ∧
      ((∃ e ∈ g.edges, Joins a b e) → g'.edges = g.edges) ∧
      g'.nodes = g.nodes := by
  have halt := findNodeAtPosition_lt g pa a ha
  have hblt := findNodeAtPosition_lt g pb b hb
  -- first click pair: select `a`, release
  let g1 : GraphGame := { g with highlightedNode := some a, isDragging := true,
                                 draggedNode := some a }
  have h1 : handleMouseDown g pa = .ok g1 := by
    rw [handleMouseDown_eq g pa hw.2.1]; simp only [ha, hh]
  have hw1 : WellFormed g1 := wellFormed_handleMouseDown g g1 pa hw h1
  -- second click pair: click `b`, release
  let g3 : GraphGame := { g with edges := addEdge g.edges a b, highlightedNode := none,
                                 isDragging := false, draggedNode := none }
  have h3 : handleMouseDown (handleMouseUp g1) pb = .ok g3 := by
    rw [handleMouseDown_eq (handleMouseUp g1) pb hw1.2.1]
    have : findNodeAtPosition (handleMouseUp g1) pb = some b := hb
    simp only [this]
    rfl
  have hw3 : WellFormed g3 :=
    wellFormed_handleMouseDown _ g3 pb (wellFormed_handleMouseUp g1 hw1) h3
  -- third click pair: select `b`, release
  let g5 : GraphGame := { g3 with highlightedNode := some b, isDragging := true,
                                  draggedNode := some b }
  have h5 : handleMouseDown (handleMouseUp g3) pb = .ok g5 := by
    rw [handleMouseDown_eq (handleMouseUp g3) pb hw3.2.1]
    have : findNodeAtPosition (handleMouseUp g3) pb = some b := hb
    simp only [this]
    rfl
  have hw5 : WellFormed g5 :=
    wellFormed_handleMouseDown _ g5 pb (wellFormed_handleMouseUp g3 hw3) h5
  -- fourth click pair: click `a`, release
  have hjoin : ∃ e ∈ addEdge g.edges a b, Joins b a e := by
    obtain ⟨e, he, hj⟩ := exists_joins_addEdge g.edges a b hab
    exact ⟨e, he, (joins_symm a b e).1 hj⟩
  let g7 : GraphGame := { g3 with highlightedNode := none }
  have h7 : handleMouseDown (handleMouseUp g5) pa = .ok g7 := by
    rw [handleMouseDown_eq (handleMouseUp g5) pa hw5.2.1]
    have : findNodeAtPosition (handleMouseUp g5) pa = some a := ha
    simp only [this]
    show Except.ok { g3 with edges := addEdge (addEdge g.edges a b) b a } = _
    rw [addEdge_of_joined _ b a hjoin]
  refine ⟨handleMouseUp g7, ?_, ?_, rfl, ?_, rfl⟩
  · rw [runAll_cons_ok g g1 (.mouseDown pa) _ h1,
      runAll_cons_ok g1 (handleMouseUp g1) .mouseUp _ rfl,
      runAll_cons_ok (handleMouseUp g1) g3 (.mouseDown pb) _ h3,
      runAll_cons_ok g3 (handleMouseUp g3) .mouseUp _ rfl,
      runAll_cons_ok (handleMouseUp g3) g5 (.mouseDown pb) _ h5,
      runAll_cons_ok g5 (handleMouseUp g5) .mouseUp _ rfl,
      runAll_cons_ok (handleMouseUp g5) g7 (.mouseDown pa) _ h7,
      runAll_cons_ok g7 (handleMouseUp g7) .mouseUp _ rfl, runAll_nil]
  · exact countP_joins_eq_one _ a b hw3.2.2.1 (exists_joins_addEdge g.edges a b hab)
  · intro hex
    exact addEdge_of_joined g.edges a b hex

/-- C2 on two nodes already joined by an edge stored as `{from: 1, to: 0}`. -/
theorem add_edge_twice_one_edge_witness :
    ∃ g', runAll ⟨[⟨10, 10, 0⟩, ⟨200, 200, 0⟩], [⟨1, 0⟩], false, none, none⟩
        [.mouseDown ⟨10, 10⟩, .mouseUp, .mouseDown ⟨200, 200⟩, .mouseUp,
         .mouseDown ⟨200, 200⟩, .mouseUp, .mouseDown ⟨10, 10⟩, .mouseUp] = .ok g' ∧
      g'.edges.countP (fun e => decide (Joins 0 1 e)) = 1 := by
  obtain ⟨g', h1, h2, _⟩ := add_edge_twice_one_edge
    ⟨[⟨10, 10, 0⟩, ⟨200, 200, 0⟩], [⟨1, 0⟩], false, none, none⟩ ⟨10, 10⟩ ⟨200, 200⟩ 0 1
    (by decide) rfl
    (by norm_num [findNodeAtPosition, findNodeLoop, nodeHit, hypotLe, nodeRadius])
    (by norm_num [findNodeAtPosition, findNodeLoop, nodeHit, hypotLe, nodeRadius])
    (by decide)
  exact ⟨g', h1, h2⟩

/-! ## Exact arithmetic and the Euclidean distance -/

/-- The comparison `hypotLe` is `Math.hypot(a, b) <= r` over the reals. -/
theorem hypotLe_iff_sqrt (a b r : ℚ) (hr : 0 ≤ r) :
    hypotLe a b r = true ↔ Real.sqrt ((a : ℝ) ^ 2 + (b : ℝ) ^ 2) ≤ (r : ℝ) := by
  have hr' : (0 : ℝ) ≤ (r : ℝ) := by exact_mod_cast hr
  rw [Real.sqrt_le_left hr']
  simp only [hypotLe, decide_eq_true_eq]
  constructor
  · intro h
    have h' : ((a * a + b * b : ℚ) : ℝ) ≤ ((r * r : ℚ) : ℝ) := by exact_mod_cast h
    push_cast at h'
    nlinarith [h']
  · intro h
    have h' : ((a * a + b * b : ℚ) : ℝ) ≤ ((r * r : ℚ) : ℝ) := by
      push_cast
      nlinarith [h]
    exact_mod_cast h'

/-- The comparison `hypotLt` is `Math.hypot(a, b) < r` over the reals. -/
theorem hypotLt_iff_sqrt (a b r : ℚ) (hr : 0 < r) :
    hypotLt a b r = true ↔ Real.sqrt ((a : ℝ) ^ 2 + (b : ℝ) ^ 2) < (r : ℝ) := by
  have hr' : (0 : ℝ) < (r : ℝ) := by exact_mod_cast hr
  rw [Real.sqrt_lt' hr']
  simp only [hypotLt, decide_eq_true_eq]
  constructor
  · intro h
    have h' : ((a * a + b * b : ℚ) : ℝ) < ((r * r : ℚ) : ℝ) := by exact_mod_cast h
    push_cast at h'
    nlinarith [h']
  · intro h
    have h' : ((a * a + b * b : ℚ) : ℝ) < ((r * r : ℚ) : ℝ) := by
      push_cast
      nlinarith [h]
    exact_mod_cast h'

/-! ## C7: moving a node, then hit-testing its new centre -/

theorem handleMouseMove_eq (g : GraphGame) (i : Nat) (p : Pos) (n : Node)
    (hd : g.isDragging = true) (hdn : g.draggedNode = some i) (hn : g.nodes[i]? = some n) :
    handleMouseMove g p =
      .ok { g with nodes := g.nodes.set i { n with x := p.x, y := p.y } } := by
  simp only [handleMouseMove, hd, hdn, hn]

theorem nodeHit_centre (p : Pos) (c : Nat) :
    nodeHit p { x := p.x, y := p.y, colorIndex := c } = true := by
  simp [nodeHit, hypotLe, nodeRadius]

theorem findNodeLoopWith_eq_firstHit (hit : Pos → Node → Bool) (pos : Pos) (l : List Node)
    (k : Nat) : findNodeLoopWith hit pos l k = firstHit (hit pos) l k := by
  induction l generalizing k with
  | nil => rfl
  | cons a rest ih => simp [findNodeLoopWith, firstHit, ih]

/-- The search of the embedding is the parametric one at the exact test. -/
theorem findNodeAtPositionWith_nodeHit (g : GraphGame) (pos : Pos) :
    findNodeAtPositionWith nodeHit g pos = findNodeAtPosition g pos := by
  unfold findNodeAtPositionWith
  rw [findNodeLoopWith_eq_firstHit, findNodeAtPosition_eq_firstHit]

theorem findEdgeLoopWith_eq_firstHit (ehit : Pos → Node → Node → Bool) (nodes : List Node)
    (pos : Pos) (l : List Edge) (k : Nat)
    (hv : ∀ e ∈ l, e.from_ < nodes.length ∧ e.to_ < nodes.length) :
    findEdgeLoopWith ehit nodes pos l k = .ok (firstHit (edgeTestIn ehit nodes pos) l k) := by
  induction l generalizing k with
  | nil => rfl
  | cons a rest ih =>
    have ha := hv a (List.mem_cons_self _ _)
    have hrest : ∀ e ∈ rest, e.from_ < nodes.length ∧ e.to_ < nodes.length :=
      fun e he => hv e (List.mem_cons_of_mem _ he)
    have h1 : nodes[a.from_]? = some nodes[a.from_] := List.getElem?_eq_getElem ha.1
    have h2 : nodes[a.to_]? = some nodes[a.to_] := List.getElem?_eq_getElem ha.2
    have h3 : edgeTestIn ehit nodes pos a = ehit pos nodes[a.from_] nodes[a.to_] := by
      simp only [edgeTestIn, h1, h2]
    rw [findEdgeLoopWith, firstHit, h3, h1, h2]
    simp only [ih (k + 1) hrest]
    cases ehit pos nodes[a.from_] nodes[a.to_] <;> simp

/-- The edge search of the embedding is the parametric one at the exact test. -/
theorem findEdgeAtPositionWith_edgeHit (g : GraphGame) (pos : Pos) :
    findEdgeAtPositionWith edgeHit g pos = findEdgeAtPosition g pos := by
  unfold findEdgeAtPositionWith findEdgeAtPosition
  generalize (0 : Nat) = k
  induction g.edges generalizing k with
  | nil => rfl
  | cons a rest ih => simp only [findEdgeLoopWith, findEdgeLoop, ih]

/-- The node search is lowest index first, whatever the test: it returns `i`
exactly when node `i` passes the test and no node of lower index does, and
`null` exactly when no node passes. -/
theorem findNodeAtPositionWith_lowest_index (hit : Pos → Node → Bool) (g : GraphGame)
    (pos : Pos) :
    (∀ i : Nat, findNodeAtPositionWith hit g pos = some i ↔
      ∃ n, g.nodes[i]? = some n ∧ hit pos n = true ∧
        ∀ (j : Nat) (m : Node), j < i → g.nodes[j]? = some m → hit pos m = false) ∧
    (findNodeAtPositionWith hit g pos = none ↔ ∀ n ∈ g.nodes, hit pos n = false) := by
  unfold findNodeAtPositionWith
  rw [findNodeLoopWith_eq_firstHit]
  exact ⟨fun i => firstHit_zero_eq_some_iff _ _ i, firstHit_eq_none_iff _ _ 0⟩

/-- With valid endpoints the edge search does not throw and is lowest index
first, whatever the test. -/
theorem findEdgeAtPositionWith_lowest_index (ehit : Pos → Node → Node → Bool) (g : GraphGame)
    (pos : Pos) (hv : ValidEndpoints g) :
    ∃ r, findEdgeAtPositionWith ehit g pos = .ok r ∧
      (∀ i : Nat, r = some i ↔
        ∃ e, g.edges[i]? = some e ∧ edgeTestIn ehit g.nodes pos e = true ∧
          ∀ (j : Nat) (f : Edge), j < i → g.edges[j]? = some f →
            edgeTestIn ehit g.nodes pos f = false) ∧
      (r = none ↔ ∀ e ∈ g.edges, edgeTestIn ehit g.nodes pos e = false) := by
  refine ⟨_, findEdgeLoopWith_eq_firstHit ehit g.nodes pos g.edges 0 hv, ?_, ?_⟩
  · exact fun i => firstHit_zero_eq_some_iff _ _ i
  · exact firstHit_eq_none_iff _ _ 0

/-- C7, as the code has it.  Let `hit` be the test of lines 74-75, of which
only this is used: a node passes it at its own centre.  When node `i` is the
drag target, a mouse move to `p` puts node `i` at `p` without throwing;
`findNodeAtPosition(p)` then returns an index `j ≤ i`, and `j = i` exactly
when no node of index below `i` passes the test at `p`. -/
theorem move_then_hit_test (hit : Pos → Node → Bool)
    (hcentre : ∀ (q : Pos) (c : Nat), hit q { x := q.x, y := q.y, colorIndex := c } = true)
    (g : GraphGame) (i : Nat) (p : Pos) (n : Node)
    (hd : g.isDragging = true) (hdn : g.draggedNode = some i) (hn : g.nodes[i]? = some n) :
    ∃ g' j, handleMouseMove g p = .ok g' ∧
      g'.nodes[i]? = some { n with x := p.x, y := p.y } ∧
      findNodeAtPositionWith hit g' p = some j ∧ j ≤ i ∧
      (j = i ↔ ∀ (k : Nat) (m : Node), k < i → g.nodes[k]? = some m → hit p m = false) := by
  have hlt : i < g.nodes.length := (List.getElem?_eq_some_iff.1 hn).1
  have hset : (g.nodes.set i { n with x := p.x, y := p.y })[i]? =
      some { n with x := p.x, y := p.y } := by simp [hlt]
  obtain ⟨j, hji, hfind, hiff⟩ :=
    firstHit_of_hit (hit p) (g.nodes.set i { n with x := p.x, y := p.y }) i _ hset
      (hcentre p n.colorIndex)
  refine ⟨{ g with nodes := g.nodes.set i { n with x := p.x, y := p.y } }, j,
    handleMouseMove_eq g i p n hd hdn hn, hset, ?_, hji, ?_⟩
  · unfold findNodeAtPositionWith
    rw [findNodeLoopWith_eq_firstHit]
    exact hfind
  · rw [hiff]
    constructor
    · intro h k m hk hm
      apply h k m hk
      rw [List.getElem?_set_ne (by omega)]
      exact hm
    · intro h k m hk hm
      apply h k m hk
      rw [List.getElem?_set_ne (by omega)] at hm
      exact hm

/-- C7 with the exact test, on node 1 dragged to (300,10), far from node 0:
the hit test there returns 1. -/
theorem move_then_hit_test_witness :
    ∃ g', handleMouseMove ⟨[⟨0, 0, 0⟩, ⟨100, 100, 0⟩], [], true, some 1, some 1⟩ ⟨300, 10⟩
        = .ok g' ∧
      g'.nodes[1]? = some ⟨300, 10, 0⟩ ∧ findNodeAtPosition g' ⟨300, 10⟩ = some 1 := by
  obtain ⟨g', j, h1, h2, h3, _, h5⟩ := move_then_hit_test nodeHit nodeHit_centre
    ⟨[⟨0, 0, 0⟩, ⟨100, 100, 0⟩], [], true, some 1, some 1⟩ 1 ⟨300, 10⟩ ⟨100, 100, 0⟩ rfl rfl rfl
  have hj : j = 1 := by
    rw [h5]
    intro k m hk hm
    have hk0 : k = 0 := by omega
    subst hk0
    simp at hm
    subst hm
    norm_num [nodeHit, hypotLe, nodeRadius]
  subst hj
  rw [findNodeAtPositionWith_nodeHit] at h3
  exact ⟨g', h1, h2, h3⟩

/-- C7 as stated fails when the node is dropped onto a node of lower index:
node 1 is dragged to (5,5), within 20 of node 0 at (0,0), and the hit test at
(5,5) returns 0. -/
theorem move_onto_lower_node_hits_lower :
    (⟨[⟨0, 0, 0⟩, ⟨100, 100, 0⟩], [], true, some 1, some 1⟩ : GraphGame).isDragging = true ∧
    (⟨[⟨0, 0, 0⟩, ⟨100, 100, 0⟩], [], true, some 1, some 1⟩ : GraphGame).draggedNode = some 1 ∧
    handleMouseMove ⟨[⟨0, 0, 0⟩, ⟨100, 100, 0⟩], [], true, some 1, some 1⟩ ⟨5, 5⟩ =
      .ok ⟨[⟨0, 0, 0⟩, ⟨5, 5, 0⟩], [], true, some 1, some 1⟩ ∧
    findNodeAtPosition ⟨[⟨0, 0, 0⟩, ⟨5, 5, 0⟩], [], true, some 1, some 1⟩ ⟨5, 5⟩ = some 0 := by
  refine ⟨rfl, rfl, ?_, ?_⟩
  · simp [handleMouseMove]
  · norm_num [findNodeAtPosition, findNodeLoop, nodeHit, hypotLe, nodeRadius]

/-! ## C8: hit-testing the midpoint of an edge -/

/-- C8, as the code has it.  Let `ehit` be the test of lines 89-115.  In a
state whose edge endpoints are valid node indices, let `p` be the exact
midpoint of edge `i`; whenever edge `i` passes the test at `p`,
`findEdgeAtPosition(p)` does not throw and returns an index `j ≤ i`, and
`j = i` exactly when no edge of index below `i` passes the test at `p`. -/
theorem midpoint_hit (ehit : Pos → Node → Node → Bool)
    (g : GraphGame) (i : Nat) (e : Edge) (n1 n2 : Node)
    (hv : ValidEndpoints g) (he : g.edges[i]? = some e)
    (h1 : g.nodes[e.from_]? = some n1) (h2 : g.nodes[e.to_]? = some n2)
    (hmid : ehit ⟨(n1.x + n2.x) / 2, (n1.y + n2.y) / 2⟩ n1 n2 = true) :
    ∃ j, j ≤ i ∧
      findEdgeAtPositionWith ehit g ⟨(n1.x + n2.x) / 2, (n1.y + n2.y) / 2⟩ = .ok (some j) ∧
      (j = i ↔ ∀ (k : Nat) (f : Edge) (m1 m2 : Node), k < i → g.edges[k]? = some f →
        g.nodes[f.from_]? = some m1 → g.nodes[f.to_]? = some m2 →
        ehit ⟨(n1.x + n2.x) / 2, (n1.y + n2.y) / 2⟩ m1 m2 = false) := by
  have hhit : edgeTestIn ehit g.nodes ⟨(n1.x + n2.x) / 2, (n1.y + n2.y) / 2⟩ e = true := by
    simp only [edgeTestIn, h1, h2]
    exact hmid
  obtain ⟨j, hji, hfind, hiff⟩ := firstHit_of_hit _ g.edges i e he hhit
  refine ⟨j, hji, ?_, ?_⟩
  · unfold findEdgeAtPositionWith
    rw [findEdgeLoopWith_eq_firstHit ehit g.nodes _ g.edges 0 hv, hfind]
  · rw [hiff]
    constructor
    · intro h k f m1 m2 hk hf hm1 hm2
      have := h k f hk hf
      simpa only [edgeTestIn, hm1, hm2] using this
    · intro h k f hk hf
      have hf' := hv f (List.mem_iff_getElem?.2 ⟨k, hf⟩)
      have hm1 : g.nodes[f.from_]? = some g.nodes[f.from_] := List.getElem?_eq_getElem hf'.1
      have hm2 : g.nodes[f.to_]? = some g.nodes[f.to_] := List.getElem?_eq_getElem hf'.2
      have := h k f _ _ hk hf hm1 hm2
      simp only [edgeTestIn, hm1, hm2]
      exact this

/-- C8 with the exact test, on the edges (0,0)-(100,0) and (0,50)-(100,50):
the midpoint (50,50) of edge 1 is 50 away from edge 0, and the search returns
1. -/
theorem midpoint_hit_witness :
    findEdgeAtPosition
      ⟨[⟨0, 0, 0⟩, ⟨100, 0, 0⟩, ⟨0, 50, 0⟩, ⟨100, 50, 0⟩], [⟨0, 1⟩, ⟨2, 3⟩], false, none, none⟩
      ⟨((0 : ℚ) + 100) / 2, ((50 : ℚ) + 50) / 2⟩ = .ok (some 1) := by
  obtain ⟨j, _, h2, h3⟩ := midpoint_hit edgeHit
    ⟨[⟨0, 0, 0⟩, ⟨100, 0, 0⟩, ⟨0, 50, 0⟩, ⟨100, 50, 0⟩], [⟨0, 1⟩, ⟨2, 3⟩], false, none, none⟩
    1 ⟨2, 3⟩ ⟨0, 50, 0⟩ ⟨100, 50, 0⟩ (by decide) rfl rfl rfl
    (by norm_num [edgeHit, closestPoint, hypotLt, edgeTolerance])
  have hj : j = 1 := by
    rw [h3]
    intro k f m1 m2 hk hf hm1 hm2
    have hk0 : k = 0 := by omega
    subst hk0
    simp at hf
    subst hf
    simp at hm1 hm2
    subst hm1 hm2
    norm_num [edgeHit, closestPoint, hypotLt, edgeTolerance]
  subst hj
  rw [findEdgeAtPositionWith_edgeHit] at h2
  exact h2

/-- C8 as stated fails when an earlier edge passes through the midpoint: edge
1 joins (50,-50) and (50,50), its midpoint (50,0) lies on edge 0 from (0,0)
to (100,0), and the search returns 0. -/
theorem midpoint_on_earlier_edge_hits_earlier :
    WellFormed ⟨[⟨0, 0, 0⟩, ⟨100, 0, 0⟩, ⟨50, -50, 0⟩, ⟨50, 50, 0⟩], [⟨0, 1⟩, ⟨2, 3⟩],
      false, none, none⟩ ∧
    (⟨[⟨0, 0, 0⟩, ⟨100, 0, 0⟩, ⟨50, -50, 0⟩, ⟨50, 50, 0⟩], [⟨0, 1⟩, ⟨2, 3⟩],
      false, none, none⟩ : GraphGame).edges[1]? = some ⟨2, 3⟩ ∧
    findEdgeAtPosition ⟨[⟨0, 0, 0⟩, ⟨100, 0, 0⟩, ⟨50, -50, 0⟩, ⟨50, 50, 0⟩], [⟨0, 1⟩, ⟨2, 3⟩],
      false, none, none⟩ ⟨((50 : ℚ) + 50) / 2, ((-50 : ℚ) + 50) / 2⟩ = .ok (some 0) := by
  refine ⟨by decide, rfl, ?_⟩
  norm_num [findEdgeAtPosition, findEdgeLoop, edgeHit, closestPoint, hypotLt, edgeTolerance]

/-! ## C11: a click on an edge deletes exactly that edge -/

/-- C11.  In a well-formed state, when a mouse down at `p` hits no node and
`findEdgeAtPosition(p) = k`, the handler does not throw and the edge list
becomes the old one with position `k` erased: `k` is a position of the old
list, the length drops by exactly one, positions below `k` keep their edge and
position `j ≥ k` now holds the old edge `j + 1`; the node list is unchanged and
the highlight is `null`. -/
theorem edge_click_deletes_edge (g : GraphGame) (p : Pos) (k : Nat)
    (hw : WellFormed g) (hn : findNodeAtPosition g p = none)
    (he : findEdgeAtPosition g p = .ok (some k)) :
    ∃ g', handleMouseDown g p = .ok g' ∧
      g'.edges = g.edges.eraseIdx k ∧ k < g.edges.length ∧
      g'.edges.length + 1 = g.edges.length ∧
      (∀ j : Nat, j < k → g'.edges[j]? = g.edges[j]?) ∧
      (∀ j : Nat, k ≤ j → g'.edges[j]? = g.edges[j + 1]?) ∧
      g'.nodes = g.nodes ∧ g'.highlightedNode = none ∧
      g'.isDragging = g.isDragging ∧ g'.draggedNode = g.draggedNode := by
  have hk : k < g.edges.length := by
    rw [findEdgeAtPosition_ok g p hw.2.1] at he
    exact firstHit_lt _ _ _ (by simpa using he)
  refine ⟨{ g with edges := g.edges.eraseIdx k, highlightedNode := none }, ?_, rfl, hk, ?_, ?_, ?_,
    rfl, rfl, rfl, rfl⟩
  · simp only [handleMouseDown, he, hn]
  · show (g.edges.eraseIdx k).length + 1 = g.edges.length
    rw [List.length_eraseIdx]
    simp only [hk, if_true]
    omega
  · intro j hj
    show (g.edges.eraseIdx k)[j]? = g.edges[j]?
    rw [List.getElem?_eraseIdx]
    simp [hj]
  · intro j hj
    show (g.edges.eraseIdx k)[j]? = g.edges[j + 1]?
    rw [List.getElem?_eraseIdx]
    simp [Nat.not_lt.2 hj]

/-- C11 on the scenario of the specification: nodes at (0,0) and (100,0)
joined by an edge, clicked at (50,0), on the segment and far from both nodes. -/
theorem edge_click_deletes_edge_witness :
    ∃ g', handleMouseDown ⟨[⟨0, 0, 0⟩, ⟨100, 0, 0⟩], [⟨0, 1⟩], false, none, none⟩ ⟨50, 0⟩
        = .ok g' ∧
      g'.edges = [] ∧ g'.nodes = [⟨0, 0, 0⟩, ⟨100, 0, 0⟩] ∧ g'.highlightedNode = none := by
  obtain ⟨g', h1, h2, _, _, _, _, h3, h4, _⟩ := edge_click_deletes_edge
    ⟨[⟨0, 0, 0⟩, ⟨100, 0, 0⟩], [⟨0, 1⟩], false, none, none⟩ ⟨50, 0⟩ 0 (by decide)
    (by norm_num [findNodeAtPosition, findNodeLoop, nodeHit, hypotLe, nodeRadius])
    (by norm_num [findEdgeAtPosition, findEdgeLoop, edgeHit, closestPoint, hypotLt,
      edgeTolerance])
  exact ⟨g', h1, h2, h3, h4⟩

/-! ## C16: node hit-testing has priority over edge hit-testing -/

theorem addEdge_prefix (edges : List Edge) (h n : Nat) : edges <+: addEdge edges h n := by
  rcases addEdge_cases edges h n with ⟨heq, _⟩ | ⟨heq, _, _⟩
  · rw [heq]
  · rw [heq]; exact List.prefix_append _ _

/-- C16.  In a well-formed state, a mouse down at a point that hits a node
does not throw and removes no edge: the old edge list is a prefix of the new
one, whatever the edge hit test gives at that point. -/
theorem node_hit_removes_no_edge (g : GraphGame) (p : Pos) (i : Nat)
    (hw : WellFormed g) (hn : findNodeAtPosition g p = some i) :
    ∃ g', handleMouseDown g p = .ok g' ∧ g.edges <+: g'.edges := by
  rw [handleMouseDown_eq g p hw.2.1]
  simp only [hn]
  cases hh : g.highlightedNode with
  | none => exact ⟨_, rfl, List.prefix_refl _⟩
  | some a => exact ⟨_, rfl, addEdge_prefix g.edges a i⟩

/-- C16 on a click at the end (100,0) of an edge while node 0 is highlighted:
the point is within 10 of the edge, and the edge stays. -/
theorem node_hit_removes_no_edge_witness :
    findEdgeAtPosition ⟨[⟨0, 0, 0⟩, ⟨100, 0, 0⟩], [⟨0, 1⟩], false, none, some 0⟩ ⟨100, 0⟩
      = .ok (some 0) ∧
    ∃ g', handleMouseDown ⟨[⟨0, 0, 0⟩, ⟨100, 0, 0⟩], [⟨0, 1⟩], false, none, some 0⟩
        ⟨100, 0⟩ = .ok g' ∧ [⟨0, 1⟩] <+: g'.edges :=
  ⟨by norm_num [findEdgeAtPosition, findEdgeLoop, edgeHit, closestPoint, hypotLt,
      edgeTolerance],
   node_hit_removes_no_edge ⟨[⟨0, 0, 0⟩, ⟨100, 0, 0⟩], [⟨0, 1⟩], false, none, some 0⟩
    ⟨100, 0⟩ 1 (by decide)
    (by norm_num [findNodeAtPosition, findNodeLoop, nodeHit, hypotLe, nodeRadius])⟩

/-! ## C12 and C14: the drag gesture and the highlight across pointer-up -/

/-- A mouse move outside a drag changes nothing. -/
theorem handleMouseMove_not_dragging (g : GraphGame) (q : Pos)
    (h : g.isDragging = false ∨ g.draggedNode = none) : handleMouseMove g q = .ok g := by
  unfold handleMouseMove
  rcases h with h | h
  · simp [h]
  · rw [h]
    cases g.isDragging <;> rfl

/-- The gesture down(p), move(q), up on node `i`, from a state with no
highlight. -/
theorem drag_gesture_eq (g : GraphGame) (p q : Pos) (i : Nat) (n : Node)
    (hv : ValidEndpoints g) (hh : g.highlightedNode = none)
    (hf : findNodeAtPosition g p = some i) (hn : g.nodes[i]? = some n) :
    runAll g [.mouseDown p, .mouseMove q, .mouseUp] =
      .ok { g with nodes := g.nodes.set i { n with x := q.x, y := q.y },
                   highlightedNode := some i, isDragging := false, draggedNode := none } := by
  have h1 : handleMouseDown g p =
      .ok { g with highlightedNode := some i, isDragging := true, draggedNode := some i } := by
    rw [handleMouseDown_eq g p hv]
    simp only [hf, hh]
  have h2 : handle { g with highlightedNode := some i, isDragging := true,
                            draggedNode := some i } (.mouseMove q) =
      .ok { g with nodes := g.nodes.set i { n with x := q.x, y := q.y },
                   highlightedNode := some i, isDragging := true, draggedNode := some i } :=
    handleMouseMove_eq
      { g with highlightedNode := some i, isDragging := true, draggedNode := some i }
      i q n rfl rfl hn
  rw [runAll_cons_ok g _ (.mouseDown p) _ h1, runAll_cons_ok _ _ (.mouseMove q) _ h2,
    runAll_cons_ok _ _ .mouseUp _ rfl, runAll_nil]
  rfl

/-- The click down(p), up on node `i`, from a state with no highlight. -/
theorem click_gesture_eq (g : GraphGame) (p : Pos) (i : Nat)
    (hv : ValidEndpoints g) (hh : g.highlightedNode = none)
    (hf : findNodeAtPosition g p = some i) :
    runAll g [.mouseDown p, .mouseUp] =
      .ok { g with highlightedNode := some i, isDragging := false, draggedNode := none } := by
  have h1 : handleMouseDown g p =
      .ok { g with highlightedNode := some i, isDragging := true, draggedNode := some i } := by
    rw [handleMouseDown_eq g p hv]
    simp only [hf, hh]
  rw [runAll_cons_ok g _ (.mouseDown p) _ h1, runAll_cons_ok _ _ .mouseUp _ rfl, runAll_nil]
  rfl

/-- C12.  From a well-formed state with no highlight and no drag, when `p`
hits node `i`, the gesture down(p), move(q), up completes and leaves node `i`
at exactly `q` with its colour, every other node as it was, the edge list
unchanged, `isDragging = false` and `draggedNode = null`; and a mouse move in
a state that is not dragging changes nothing. -/
theorem drag_moves_only_dragged_node :
    (∀ (g : GraphGame) (p q : Pos) (i : Nat) (n : Node), WellFormed g →
      g.highlightedNode = none → g.isDragging = false → g.draggedNode = none →
      findNodeAtPosition g p = some i → g.nodes[i]? = some n →
      ∃ g', runAll g [.mouseDown p, .mouseMove q, .mouseUp] = .ok g' ∧
        g'.nodes[i]? = some { x := q.x, y := q.y, colorIndex := n.colorIndex } ∧
        g'.nodes.length = g.nodes.length ∧
        (∀ j : Nat, j ≠ i → g'.nodes[j]? = g.nodes[j]?) ∧
        g'.edges = g.edges ∧ g'.isDragging = false ∧ g'.draggedNode = none) ∧
    (∀ (g : GraphGame) (q : Pos), g.isDragging = false ∨ g.draggedNode = none →
      handleMouseMove g q = .ok g) := by
  refine ⟨?_, handleMouseMove_not_dragging⟩
  intro g p q i n hw hh _ _ hf hn
  have hlt : i < g.nodes.length := (List.getElem?_eq_some_iff.1 hn).1
  refine ⟨_, drag_gesture_eq g p q i n hw.2.1 hh hf hn, ?_, ?_, ?_, rfl, rfl, rfl⟩
  · simp [hlt]
  · simp
  · intro j hj
    simp [List.getElem?_set_ne (Ne.symm hj)]

/-- C12 on the scenario of the specification: node 0 at (10,10) dragged by
down at (10,10), move to (300,10), up. -/
theorem drag_moves_only_dragged_node_witness :
    ∃ g', runAll ⟨[⟨10, 10, 0⟩, ⟨200, 200, 0⟩], [⟨0, 1⟩], false, none, none⟩
        [.mouseDown ⟨10, 10⟩, .mouseMove ⟨300, 10⟩, .mouseUp] = .ok g' ∧
      g'.nodes[0]? = some ⟨300, 10, 0⟩ ∧ g'.edges = [⟨0, 1⟩] := by
  obtain ⟨g', h1, h2, _, _, h3, _⟩ := drag_moves_only_dragged_node.1
    ⟨[⟨10, 10, 0⟩, ⟨200, 200, 0⟩], [⟨0, 1⟩], false, none, none⟩ ⟨10, 10⟩ ⟨300, 10⟩ 0
    ⟨10, 10, 0⟩ (by decide) rfl rfl rfl
    (by norm_num [findNodeAtPosition, findNodeLoop, nodeHit, hypotLe, nodeRadius]) rfl
  exact ⟨g', h1, h2, h3⟩

/-- C14, as the code has it.  From a well-formed state with no highlight and
no drag, when `p` hits node `i`: after down(p), up the highlight is `i`, and
after down(p), move(q), up the highlight is `i` as well (neither
`handleMouseMove` nor `handleMouseUp` writes `highlightedNode`); in both cases
`isDragging = false` and `draggedNode = null` afterwards. -/
theorem highlight_survives_pointer_up (g : GraphGame) (p q : Pos) (i : Nat)
    (hw : WellFormed g) (hh : g.highlightedNode = none) (_hd : g.isDragging = false)
    (_hdn : g.draggedNode = none) (hf : findNodeAtPosition g p = some i) :
    (∃ g', runAll g [.mouseDown p, .mouseUp] = .ok g' ∧
      g'.highlightedNode = some i ∧ g'.isDragging = false ∧ g'.draggedNode = none) ∧
    (∃ g', runAll g [.mouseDown p, .mouseMove q, .mouseUp] = .ok g' ∧
      g'.highlightedNode = some i ∧ g'.isDragging = false ∧ g'.draggedNode = none) := by
  have hlt := findNodeAtPosition_lt g p i hf
  exact ⟨⟨_, click_gesture_eq g p i hw.2.1 hh hf, rfl, rfl, rfl⟩,
    ⟨_, drag_gesture_eq g p q i g.nodes[i] hw.2.1 hh hf (List.getElem?_eq_getElem hlt),
      rfl, rfl, rfl⟩⟩

/-- C14 on a single node at (10,10), clicked and dragged to (300,10). -/
theorem highlight_survives_pointer_up_witness :
    (∃ g', runAll ⟨[⟨10, 10, 0⟩], [], false, none, none⟩ [.mouseDown ⟨10, 10⟩, .mouseUp]
        = .ok g' ∧
      g'.highlightedNode = some 0 ∧ g'.isDragging = false ∧ g'.draggedNode = none) ∧
    (∃ g', runAll ⟨[⟨10, 10, 0⟩], [], false, none, none⟩
        [.mouseDown ⟨10, 10⟩, .mouseMove ⟨300, 10⟩, .mouseUp] = .ok g' ∧
      g'.highlightedNode = some 0 ∧ g'.isDragging = false ∧ g'.draggedNode = none) :=
  highlight_survives_pointer_up ⟨[⟨10, 10, 0⟩], [], false, none, none⟩ ⟨10, 10⟩ ⟨300, 10⟩ 0
    (by decide) rfl rfl rfl
    (by norm_num [findNodeAtPosition, findNodeLoop, nodeHit, hypotLe, nodeRadius])

/-- C14 as stated fails: after a drag that moved, down at (10,10), move to
(300,10), up, the highlight is still node 0, not `null`. -/
theorem highlight_kept_after_moved_drag :
    WellFormed ⟨[⟨10, 10, 0⟩], [], false, none, none⟩ ∧
    findNodeAtPosition ⟨[⟨10, 10, 0⟩], [], false, none, none⟩ ⟨10, 10⟩ = some 0 ∧
    runAll ⟨[⟨10, 10, 0⟩], [], false, none, none⟩
      [.mouseDown ⟨10, 10⟩, .mouseMove ⟨300, 10⟩, .mouseUp] =
      .ok ⟨[⟨300, 10, 0⟩], [], false, none, some 0⟩ := by
  have hf : findNodeAtPosition ⟨[⟨10, 10, 0⟩], [], false, none, none⟩ ⟨10, 10⟩ = some 0 := by
    norm_num [findNodeAtPosition, findNodeLoop, nodeHit, hypotLe, nodeRadius]
  refine ⟨by decide, hf, ?_⟩
  rw [drag_gesture_eq _ ⟨10, 10⟩ ⟨300, 10⟩ 0 ⟨10, 10, 0⟩ (by decide) rfl hf rfl]
  rfl

/-! ## C15: the frame of a double click -/

/-- C15.  In every state, a double click at `p` does not throw and leaves the
highlight, the two drag fields, the edge list, the number of nodes and every
node's position unchanged; when `p` hits node `i` every other node is
unchanged (only node `i`'s `colorIndex` may differ), and when `p` hits no node
the whole state is unchanged. -/
theorem double_click_frame (g : GraphGame) (p : Pos) :
    ∃ g', handleDoubleClick g p = .ok g' ∧
      g'.highlightedNode = g.highlightedNode ∧ g'.isDragging = g.isDragging ∧
      g'.draggedNode = g.draggedNode ∧ g'.edges = g.edges ∧
      g'.nodes.length = g.nodes.length ∧
      (∀ (j : Nat) (n : Node), g.nodes[j]? = some n →
        ∃ n', g'.nodes[j]? = some n' ∧ n'.x = n.x ∧ n'.y = n.y) ∧
      (∀ i : Nat, findNodeAtPosition g p = some i →
        ∀ j : Nat, j ≠ i → g'.nodes[j]? = g.nodes[j]?) ∧
      (findNodeAtPosition g p = none → g' = g) := by
  cases hf : findNodeAtPosition g p with
  | none =>
    refine ⟨g, by simp only [handleDoubleClick, hf], rfl, rfl, rfl, rfl, rfl, ?_, ?_, fun _ => rfl⟩
    · intro j n hn
      exact ⟨n, hn, rfl, rfl⟩
    · intro i hi
      cases hi
  | some i =>
    have hlt := findNodeAtPosition_lt g p i hf
    have hn : g.nodes[i]? = some g.nodes[i] := List.getElem?_eq_getElem hlt
    refine ⟨_, handleDoubleClick_eq g p i g.nodes[i] hf hn, rfl, rfl, rfl, rfl, by simp, ?_, ?_,
      fun h => by cases h⟩
    · intro j n hj
      by_cases hji : j = i
      · subst hji
        rw [hn] at hj
        cases hj
        exact ⟨{ g.nodes[j] with colorIndex := (g.nodes[j].colorIndex + 1) % 3 },
          by simp [hlt], rfl, rfl⟩
      · exact ⟨n, by simp [List.getElem?_set_ne (Ne.symm hji), hj], rfl, rfl⟩
    · intro i' hi' j hj
      cases hi'
      simp [List.getElem?_set_ne (Ne.symm hj)]

/-! ## C17: no out-of-range index under the model invariants -/

theorem handleMouseMove_isOk (g : GraphGame) (p : Pos) (hd : DragValid g) :
    ∃ g', handleMouseMove g p = .ok g' := by
  unfold handleMouseMove
  cases hdrag : g.isDragging with
  | false => exact ⟨g, by cases g.draggedNode <;> rfl⟩
  | true =>
    cases hdn : g.draggedNode with
    | none => exact ⟨g, rfl⟩
    | some d =>
      have hlt := hd d hdn
      simp only [List.getElem?_eq_getElem hlt]
      exact ⟨_, rfl⟩

/-- C17.  In a state whose edge endpoints are below `nodes.length` and whose
`draggedNode` and `highlightedNode` are each `null` or below `nodes.length`,
for every query point: the index returned by `findNodeAtPosition` is a node
index; `findEdgeAtPosition` finds both endpoint nodes of every edge it tests
(it does not throw) and the index it returns, at which `handleMouseDown`
splices, is a position of the edge list; and `handleMouseDown`,
`handleMouseMove` (`nodes[draggedNode]`) and `handleDoubleClick`
(`nodes[nodeIndex]`) never read past the node list (none of them throws). -/
theorem no_out_of_range_access (g : GraphGame) (p : Pos)
    (hv : ValidEndpoints g) (hd : DragValid g) (_hh : HighlightValid g) :
    (∀ i : Nat, findNodeAtPosition g p = some i → i < g.nodes.length) ∧
    (∃ r, findEdgeAtPosition g p = .ok r ∧ ∀ k : Nat, r = some k → k < g.edges.length) ∧
    (∃ g', handleMouseDown g p = .ok g') ∧
    (∃ g', handleMouseMove g p = .ok g') ∧
    (∃ g', handleDoubleClick g p = .ok g') := by
  refine ⟨findNodeAtPosition_lt g p, ⟨_, findEdgeAtPosition_ok g p hv, ?_⟩,
    ⟨_, handleMouseDown_eq g p hv⟩, handleMouseMove_isOk g p hd,
    ⟨_, handleDoubleClick_isOk g p⟩⟩
  intro k hk
  exact firstHit_lt _ _ _ hk

/-- C17 on a state in the middle of a drag of node 1. -/
theorem no_out_of_range_access_witness :
    ∃ g', handleMouseMove ⟨[⟨0, 0, 0⟩, ⟨100, 0, 0⟩], [⟨0, 1⟩], true, some 1, some 1⟩ ⟨50, 50⟩
      = .ok g' :=
  (no_out_of_range_access ⟨[⟨0, 0, 0⟩, ⟨100, 0, 0⟩], [⟨0, 1⟩], true, some 1, some 1⟩ ⟨50, 50⟩
    (by decide) (by simp [DragValid]) (by decide)).2.2.2.1

/-! ## C20: session-state well-formedness along every run -/

/-- The result of a `handleMouseDown` that did not throw, in any state. -/
theorem handleMouseDown_cases (g g' : GraphGame) (pos : Pos)
    (h : handleMouseDown g pos = .ok g') :
    (∃ n, findNodeAtPosition g pos = some n ∧
      g' = { g with highlightedNode := some n, isDragging := true, draggedNode := some n }) ∨
    (∃ edges, g' = { g with edges := edges, highlightedNode := none }) ∨
    g' = { g with nodes := g.nodes ++ [{ x := pos.x, y := pos.y, colorIndex := 0 }],
                  highlightedNode := none } := by
  unfold handleMouseDown at h
  cases he : findEdgeAtPosition g pos with
  | error err => simp [he] at h
  | ok edgeIndex =>
    simp only [he] at h
    cases hn : findNodeAtPosition g pos with
    | some n =>
      cases hh : g.highlightedNode with
      | none =>
        simp only [hn, hh, Except.ok.injEq] at h
        exact Or.inl ⟨n, rfl, h.symm⟩
      | some a =>
        simp only [hn, hh, Except.ok.injEq] at h
        exact Or.inr (Or.inl ⟨_, h.symm⟩)
    | none =>
      cases edgeIndex with
      | some k =>
        simp only [hn, Except.ok.injEq] at h
        exact Or.inr (Or.inl ⟨_, h.symm⟩)
      | none =>
        simp only [hn, Except.ok.injEq] at h
        exact Or.inr (Or.inr h.symm)

/-- The result of a `handleMouseMove` that did not throw, in any state. -/
theorem handleMouseMove_cases (g g' : GraphGame) (pos : Pos)
    (h : handleMouseMove g pos = .ok g') :
    g' = g ∨ ∃ d node, g.nodes[d]? = some node ∧
      g' = { g with nodes := g.nodes.set d { node with x := pos.x, y := pos.y } } := by
  unfold handleMouseMove at h
  cases hdrag : g.isDragging with
  | false =>
    simp only [hdrag, Except.ok.injEq] at h
    exact Or.inl h.symm
  | true =>
    cases hdn : g.draggedNode with
    | none =>
      simp only [hdrag, hdn, Except.ok.injEq] at h
      exact Or.inl h.symm
    | some d =>
      cases hnode : g.nodes[d]? with
      | none => simp [hdrag, hdn, hnode] at h
      | some node =>
        simp only [hdrag, hdn, hnode, Except.ok.injEq] at h
        exact Or.inr ⟨d, node, hnode, h.symm⟩

/-- The result of a `handleDoubleClick`, in any state. -/
theorem handleDoubleClick_cases (g g' : GraphGame) (pos : Pos)
    (h : handleDoubleClick g pos = .ok g') :
    g' = g ∨ ∃ i node, g.nodes[i]? = some node ∧
      g' =
        { g with nodes := g.nodes.set i { node with colorIndex := (node.colorIndex + 1) % 3 } } := by
  unfold handleDoubleClick at h
  cases hf : findNodeAtPosition g pos with
  | none =>
    simp only [hf, Except.ok.injEq] at h
    exact Or.inl h.symm
  | some i =>
    cases hnode : g.nodes[i]? with
    | none => simp [hf, hnode] at h
    | some node =>
      simp only [hf, hnode, Except.ok.injEq] at h
      exact Or.inr ⟨i, node, hnode, h.symm⟩

theorem sessionInv_setNode (g : GraphGame) (i : Nat) (node : Node) (hs : SessionInv g)
    (hc : node.colorIndex < 3) : SessionInv { g with nodes := g.nodes.set i node } := by
  obtain ⟨hflag, hdrag, hhl, hcol⟩ := hs
  refine ⟨hflag, ?_, ?_, ?_⟩
  · intro d hd
    simpa using hdrag d hd
  · intro k hk
    simpa using hhl k hk
  · intro n hn
    rcases List.mem_or_eq_of_mem_set hn with hn | rfl
    · exact hcol n hn
    · exact hc

theorem sessionInv_handle (g g' : GraphGame) (ev : Event) (hs : SessionInv g)
    (h : handle g ev = .ok g') : SessionInv g' := by
  obtain ⟨hflag, hdrag, hhl, hcol⟩ := hs
  cases ev with
  | mouseDown pos =>
    rcases handleMouseDown_cases g g' pos h with ⟨n, hn, rfl⟩ | ⟨edges, rfl⟩ | rfl
    · have hlt := findNodeAtPosition_lt g pos n hn
      refine ⟨by simp, ?_, ?_, hcol⟩
      · intro d hd
        simp at hd; subst hd; exact hlt
      · intro k hk
        simp at hk; subst hk; exact hlt
    · exact ⟨hflag, hdrag, by intro k hk; simp at hk, hcol⟩
    · refine ⟨hflag, ?_, by intro k hk; simp at hk, ?_⟩
      · intro d hd
        have := hdrag d hd
        simp only [List.length_append, List.length_singleton]
        omega
      · intro n hn
        rcases List.mem_append.1 hn with hn | hn
        · exact hcol n hn
        · simp at hn; subst hn
          show 0 < 3
          omega
  | mouseMove pos =>
    rcases handleMouseMove_cases g g' pos h with rfl | ⟨d, node, hnode, rfl⟩
    · exact ⟨hflag, hdrag, hhl, hcol⟩
    · exact sessionInv_setNode g d _ ⟨hflag, hdrag, hhl, hcol⟩
        (hcol node (List.mem_iff_getElem?.2 ⟨d, hnode⟩))
  | mouseUp =>
    simp only [handle, Except.ok.injEq] at h
    subst h
    exact ⟨by simp [handleMouseUp], by intro d hd; simp [handleMouseUp] at hd, hhl, hcol⟩
  | doubleClick pos =>
    rcases handleDoubleClick_cases g g' pos h with rfl | ⟨i, node, _, rfl⟩
    · exact ⟨hflag, hdrag, hhl, hcol⟩
    · exact sessionInv_setNode g i _ ⟨hflag, hdrag, hhl, hcol⟩ (Nat.mod_lt _ (by decide))

theorem sessionInv_dispatch (g : GraphGame) (ev : Event) (hs : SessionInv g) :
    SessionInv (dispatch g ev) := by
  unfold dispatch
  cases h : handle g ev with
  | ok g' => exact sessionInv_handle g g' ev hs h
  | error err => exact hs

theorem sessionInv_run (g : GraphGame) (evs : List Event) (hs : SessionInv g) :
    SessionInv (run g evs) := by
  induction evs generalizing g with
  | nil => exact hs
  | cons ev rest ih => exact ih (dispatch g ev) (sessionInv_dispatch g ev hs)

theorem nodesStep_dispatch (g : GraphGame) (ev : Event) :
    NodesStep g.nodes (dispatch g ev).nodes := by
  unfold dispatch
  cases h : handle g ev with
  | error err => exact Or.inl rfl
  | ok g' =>
    show NodesStep g.nodes g'.nodes
    cases ev with
    | mouseDown pos =>
      rcases handleMouseDown_cases g g' pos h with ⟨n, _, rfl⟩ | ⟨edges, rfl⟩ | rfl
      · exact Or.inl rfl
      · exact Or.inl rfl
      · exact Or.inr (Or.inr ⟨_, rfl⟩)
    | mouseMove pos =>
      rcases handleMouseMove_cases g g' pos h with rfl | ⟨d, node, hnode, rfl⟩
      · exact Or.inl rfl
      · exact Or.inr (Or.inl ⟨d, _, (List.getElem?_eq_some_iff.1 hnode).1, rfl⟩)
    | mouseUp =>
      simp only [handle, Except.ok.injEq] at h
      subst h
      exact Or.inl rfl
    | doubleClick pos =>
      rcases handleDoubleClick_cases g g' pos h with rfl | ⟨i, node, hnode, rfl⟩
      · exact Or.inl rfl
      · exact Or.inr (Or.inl ⟨i, _, (List.getElem?_eq_some_iff.1 hnode).1, rfl⟩)

theorem nodesStep_length (l l' : List Node) (h : NodesStep l l') : l.length ≤ l'.length := by
  rcases h with rfl | ⟨i, n, _, rfl⟩ | ⟨n, rfl⟩
  · exact le_refl _
  · simp
  · simp

theorem run_length_le (g : GraphGame) (evs : List Event) :
    g.nodes.length ≤ (run g evs).nodes.length := by
  induction evs generalizing g with
  | nil => exact le_refl _
  | cons ev rest ih =>
    exact le_trans (nodesStep_length _ _ (nodesStep_dispatch g ev)) (ih (dispatch g ev))

/-- C20.  Start from a state with `isDragging = false`, `draggedNode = null`,
`highlightedNode = null` and every colour index in {0,1,2}, and deliver any
finite sequence of pointer events.  In the state reached: (i) `isDragging` is
true exactly when `draggedNode` is not `null`; (ii) `draggedNode` and
`highlightedNode` are each `null` or an index below `nodes.length`; (iii) every
colour index is in {0,1,2}; (iv) the node list is at least as long as at the
start, and any further event leaves it unchanged, updates one existing
position in place, or appends one node, so it never shrinks and every index
stays on its node. -/
theorem session_invariant (g : GraphGame) (evs : List Event)
    (h1 : g.isDragging = false) (h2 : g.draggedNode = none) (h3 : g.highlightedNode = none)
    (h4 : ∀ n ∈ g.nodes, n.colorIndex < 3) :
    ((run g evs).isDragging = true ↔ (run g evs).draggedNode ≠ none) ∧
    DragValid (run g evs) ∧ HighlightValid (run g evs) ∧
    (∀ n ∈ (run g evs).nodes, n.colorIndex < 3) ∧
    g.nodes.length ≤ (run g evs).nodes.length ∧
    (∀ ev : Event, NodesStep (run g evs).nodes (dispatch (run g evs) ev).nodes ∧
      (run g evs).nodes.length ≤ (dispatch (run g evs) ev).nodes.length) := by
  have hs : SessionInv g :=
    ⟨by simp [h1, h2], by intro d hd; simp [h2] at hd, by intro k hk; simp [h3] at hk, h4⟩
  obtain ⟨ha, hb, hc, hd⟩ := sessionInv_run g evs hs
  exact ⟨ha, hb, hc, hd, run_length_le g evs,
    fun ev => ⟨nodesStep_dispatch _ ev, nodesStep_length _ _ (nodesStep_dispatch _ ev)⟩⟩

/-- C20 on a run that selects node 0, drags it, recolours it and adds a node. -/
theorem session_invariant_witness :
    DragValid (run ⟨[⟨10, 10, 0⟩], [], false, none, none⟩
      [.mouseDown ⟨10, 10⟩, .mouseMove ⟨300, 10⟩, .doubleClick ⟨300, 10⟩, .mouseUp,
       .mouseDown ⟨50, 50⟩]) :=
  (session_invariant ⟨[⟨10, 10, 0⟩], [], false, none, none⟩
    [.mouseDown ⟨10, 10⟩, .mouseMove ⟨300, 10⟩, .doubleClick ⟨300, 10⟩, .mouseUp,
     .mouseDown ⟨50, 50⟩] rfl rfl rfl (by decide)).2.1


/-! ## Startup: the node loop -/

theorem randomIndex_lt (r : ℚ) (k : Nat) (h0 : 0 ≤ r) (h1 : r < 1) (hk : 0 < k) :
    randomIndex r k < k := by
  unfold randomIndex
  have hk' : (0 : ℚ) < (k : ℚ) := by exact_mod_cast hk
  have hnonneg : 0 ≤ Int.floor (r * k) := Int.floor_nonneg.2 (mul_nonneg h0 (le_of_lt hk'))
  have hlt : Int.floor (r * k) < (k : ℤ) := by
    rw [Int.floor_lt]
    push_cast
    nlinarith
  omega

/-- The index drawn is `m` when `m ≤ r·k < m + 1`. -/
theorem randomIndex_eq (r : ℚ) (k m : Nat) (h1 : (m : ℚ) ≤ r * k) (h2 : r * k < m + 1) :
    randomIndex r k = m := by
  unfold randomIndex
  have hfloor : Int.floor (r * k) = (m : ℤ) := by
    rw [Int.floor_eq_iff]
    exact ⟨by exact_mod_cast h1, by exact_mod_cast h2⟩
  rw [hfloor]
  simp

/-- A node placed by lines 41-43 on a canvas at least 40 wide and high has its
whole circle of radius 20 on the canvas. -/
theorem placed_node_in_range (width height rx ry : ℚ) (hw : 40 ≤ width) (hh : 40 ≤ height)
    (hx0 : 0 ≤ rx) (hx1 : rx < 1) (hy0 : 0 ≤ ry) (hy1 : ry < 1) :
    20 ≤ nodeRadius + rx * (width - 2 * nodeRadius) ∧
    nodeRadius + rx * (width - 2 * nodeRadius) ≤ width - 20 ∧
    20 ≤ nodeRadius + ry * (height - 2 * nodeRadius) ∧
    nodeRadius + ry * (height - 2 * nodeRadius) ≤ height - 20 := by
  unfold nodeRadius
  have hw' : 0 ≤ width - 2 * 20 := by linarith
  have hh' : 0 ≤ height - 2 * 20 := by linarith
  refine ⟨?_, ?_, ?_, ?_⟩
  · nlinarith [mul_nonneg hx0 hw']
  · nlinarith [mul_nonneg (sub_nonneg.2 (le_of_lt hx1)) hw']
  · nlinarith [mul_nonneg hy0 hh']
  · nlinarith [mul_nonneg (sub_nonneg.2 (le_of_lt hy1)) hh']

/-- With two draws per node left, the node loop returns: it appends `count`
nodes of colour 0 and consumes exactly `2 * count` draws; on a canvas at least
40 wide and high, with draws in [0,1), every appended node is in range. -/
theorem generateNodes_eq (width height : ℚ) (count : Nat) (nodes : List Node) (draws : List ℚ)
    (hlen : 2 * count ≤ draws.length) :
    ∃ added, generateNodes width height count nodes draws =
        some (nodes ++ added, draws.drop (2 * count)) ∧
      added.length = count ∧ (∀ n ∈ added, n.colorIndex = 0) ∧
      ((∀ x ∈ draws, 0 ≤ x ∧ x < 1) → 40 ≤ width → 40 ≤ height →
        ∀ n ∈ added, NodeInRange width height n) := by
  induction count generalizing nodes draws with
  | zero => exact ⟨[], by simp [generateNodes], rfl, by simp, by simp⟩
  | succ k ih =>
    match draws, hlen with
    | [], hlen => simp at hlen
    | [_], hlen => simp at hlen; omega
    | rx :: ry :: draws, hlen =>
      have hlen' : 2 * k ≤ draws.length := by simp at hlen; omega
      obtain ⟨added, hgen, hal, hcol, hin⟩ :=
        ih (nodes ++ [{ x := nodeRadius + rx * (width - 2 * nodeRadius),
                        y := nodeRadius + ry * (height - 2 * nodeRadius),
                        colorIndex := 0 }]) draws hlen'
      refine ⟨{ x := nodeRadius + rx * (width - 2 * nodeRadius),
                y := nodeRadius + ry * (height - 2 * nodeRadius),
                colorIndex := 0 } :: added, ?_, by simp [hal], ?_, ?_⟩
      · rw [generateNodes, hgen]
        have hdrop : List.drop (2 * (k + 1)) (rx :: ry :: draws) = List.drop (2 * k) draws := by
          rw [show 2 * (k + 1) = 2 * k + 1 + 1 by ring]
          rfl
        rw [hdrop]
        simp
      · intro n hn
        rcases List.mem_cons.1 hn with rfl | hn
        · rfl
        · exact hcol n hn
      · intro hd hw hh n hn
        have hrx := hd rx (by simp)
        have hry := hd ry (by simp)
        rcases List.mem_cons.1 hn with rfl | hn
        · exact ⟨rfl, placed_node_in_range width height rx ry hw hh hrx.1 hrx.2 hry.1 hry.2⟩
        · exact hin (fun x hx => hd x (by simp [hx])) hw hh n hn

/-- The node loop returns only when two draws per node were left. -/
theorem generateNodes_some_length (width height : ℚ) (count : Nat) (nodes : List Node)
    (draws : List ℚ) (res : List Node × List ℚ)
    (h : generateNodes width height count nodes draws = some res) :
    2 * count ≤ draws.length := by
  induction count generalizing nodes draws with
  | zero => omega
  | succ k ih =>
    match draws, h with
    | [], h => simp [generateNodes] at h
    | [_], h => simp [generateNodes] at h
    | rx :: ry :: draws, h =>
      rw [generateNodes] at h
      have := ih _ draws h
      simp only [List.length_cons]
      omega

/-! ## Startup: the edge loop -/

/-- When the re-draw loop returns, `to` is an index different from `from`,
and the draws left are a shorter part of the given ones. -/
theorem drawTo_spec (n f : Nat) (hn : 0 < n) (draws : List ℚ)
    (hd : ∀ x ∈ draws, 0 ≤ x ∧ x < 1) (t : Nat) (rest : List ℚ)
    (h : drawTo n f draws = some (t, rest)) :
    t ≠ f ∧ t < n ∧ (∀ x ∈ rest, 0 ≤ x ∧ x < 1) ∧ rest.length < draws.length := by
  induction draws with
  | nil => simp [drawTo] at h
  | cons r draws ih =>
    have hr := hd r (by simp)
    have hd' : ∀ x ∈ draws, 0 ≤ x ∧ x < 1 := fun x hx => hd x (by simp [hx])
    unfold drawTo at h
    by_cases heq : randomIndex r n = f
    · simp only [heq, if_true] at h
      obtain ⟨h1, h2, h3, h4⟩ := ih hd' h
      exact ⟨h1, h2, h3, by simp only [List.length_cons]; omega⟩
    · simp only [heq, if_false, Option.some.injEq, Prod.mk.injEq] at h
      obtain ⟨rfl, rfl⟩ := h
      exact ⟨heq, randomIndex_lt r n hr.1 hr.2 hn, hd', by simp⟩

/-- The re-draw loop returns exactly when some draw gives an index other than
`from`. -/
theorem drawTo_isSome_iff (n f : Nat) (draws : List ℚ) :
    (drawTo n f draws).isSome = true ↔ ∃ x ∈ draws, randomIndex x n ≠ f := by
  induction draws with
  | nil => simp [drawTo]
  | cons r draws ih =>
    unfold drawTo
    by_cases heq : randomIndex r n = f
    · simp [heq, ih]
    · simp [heq]

theorem pushIfNew_cases (edges : List Edge) (f t : Nat) :
    (pushIfNew edges f t = edges ∧ ∃ e ∈ edges, Joins f t e) ∨
    (pushIfNew edges f t = edges ++ [{ from_ := f, to_ := t }] ∧ ¬ ∃ e ∈ edges, Joins f t e) := by
  unfold pushIfNew
  cases hany : edges.any (edgeBetween f t) with
  | true =>
    left
    exact ⟨by simp, (any_edgeBetween_iff edges f t).1 hany⟩
  | false =>
    right
    refine ⟨by simp, ?_⟩
    intro hex
    have := (any_edgeBetween_iff edges f t).2 hex
    simp [hany] at this

theorem edgesOK_pushIfNew (n : Nat) (edges : List Edge) (f t : Nat) (hok : EdgesOK n edges)
    (hf : f < n) (ht : t < n) (hft : f ≠ t) : EdgesOK n (pushIfNew edges f t) := by
  rcases pushIfNew_cases edges f t with ⟨heq, _⟩ | ⟨heq, hnone⟩
  · rw [heq]; exact hok
  · rw [heq]
    refine ⟨?_, ?_⟩
    · intro e he
      rcases List.mem_append.1 he with he | he
      · exact hok.1 e he
      · simp at he; subst he
        exact ⟨hf, ht, hft⟩
    · rw [List.pairwise_append]
      refine ⟨hok.2, List.pairwise_singleton _ _, ?_⟩
      intro e he e' he'
      simp at he'; subst he'
      intro hsame
      apply hnone
      refine ⟨e, he, ?_⟩
      simp only [SamePair, Joins] at hsame ⊢
      omega

theorem length_pushIfNew (edges : List Edge) (f t : Nat) :
    edges.length ≤ (pushIfNew edges f t).length ∧
      (pushIfNew edges f t).length ≤ edges.length + 1 := by
  rcases pushIfNew_cases edges f t with ⟨heq, _⟩ | ⟨heq, _⟩
  · rw [heq]; omega
  · rw [heq]; simp

theorem foldl_pushIfNew_spec (n : Nat) (pairs : List (Nat × Nat)) (edges : List Edge)
    (hok : EdgesOK n edges) (hp : ∀ pr ∈ pairs, pr.1 < n ∧ pr.2 < n ∧ pr.1 ≠ pr.2) :
    EdgesOK n (pairs.foldl (fun es pr => pushIfNew es pr.1 pr.2) edges) ∧
    edges.length ≤ (pairs.foldl (fun es pr => pushIfNew es pr.1 pr.2) edges).length ∧
    (pairs.foldl (fun es pr => pushIfNew es pr.1 pr.2) edges).length ≤
      edges.length + pairs.length := by
  induction pairs generalizing edges with
  | nil => exact ⟨hok, le_refl _, by simp⟩
  | cons pr rest ih =>
    have hpr := hp pr (by simp)
    have hrest : ∀ q ∈ rest, q.1 < n ∧ q.2 < n ∧ q.1 ≠ q.2 := fun q hq => hp q (by simp [hq])
    obtain ⟨h1, h2, h3⟩ :=
      ih (pushIfNew edges pr.1 pr.2) (edgesOK_pushIfNew n edges pr.1 pr.2 hok hpr.1 hpr.2.1 hpr.2.2)
        hrest
    have hl := length_pushIfNew edges pr.1 pr.2
    simp only [List.foldl_cons, List.length_cons]
    exact ⟨h1, by omega, by omega⟩

/-- The edge loop is the fold of the guarded push over the pairs it draws. -/
theorem generateEdges_eq_attempts (n count : Nat) (edges : List Edge) (draws : List ℚ) :
    generateEdges n count edges draws =
      (attempts n count draws).map
        (fun pr => (pr.1.foldl (fun es q => pushIfNew es q.1 q.2) edges, pr.2)) := by
  induction count generalizing edges draws with
  | zero => simp [generateEdges, attempts]
  | succ k ih =>
    match draws with
    | [] => simp [generateEdges, attempts]
    | r :: draws =>
      rw [generateEdges, attempts]
      cases hto : drawTo n (randomIndex r n) draws with
      | none => rfl
      | some res =>
        obtain ⟨t, rest⟩ := res
        simp only []
        rw [ih]
        cases hat : attempts n k rest with
        | none => rfl
        | some res' =>
          obtain ⟨pairs, rest'⟩ := res'
          simp

/-- When the loop has drawn its pairs there are exactly `count` of them, each
of two different indices below `n`. -/
theorem attempts_spec (n : Nat) (hn : 0 < n) (count : Nat) (draws : List ℚ)
    (hd : ∀ x ∈ draws, 0 ≤ x ∧ x < 1) (pairs : List (Nat × Nat)) (rest : List ℚ)
    (h : attempts n count draws = some (pairs, rest)) :
    pairs.length = count ∧ (∀ q ∈ pairs, q.1 < n ∧ q.2 < n ∧ q.1 ≠ q.2) ∧
      (∀ x ∈ rest, 0 ≤ x ∧ x < 1) := by
  induction count generalizing draws pairs with
  | zero =>
    simp only [attempts, Option.some.injEq, Prod.mk.injEq] at h
    obtain ⟨rfl, rfl⟩ := h
    exact ⟨rfl, by simp, hd⟩
  | succ k ih =>
    match draws, hd, h with
    | [], _, h => simp [attempts] at h
    | r :: draws, hd, h =>
      have hr := hd r (by simp)
      have hd' : ∀ x ∈ draws, 0 ≤ x ∧ x < 1 := fun x hx => hd x (by simp [hx])
      rw [attempts] at h
      cases hto : drawTo n (randomIndex r n) draws with
      | none => simp [hto] at h
      | some res =>
        obtain ⟨t, rest1⟩ := res
        simp only [hto] at h
        obtain ⟨htf, htn, hrest1, _⟩ := drawTo_spec n _ hn draws hd' t rest1 hto
        cases hat : attempts n k rest1 with
        | none => simp [hat] at h
        | some res' =>
          obtain ⟨pairs', rest'⟩ := res'
          simp only [hat, Option.some.injEq, Prod.mk.injEq] at h
          obtain ⟨rfl, rfl⟩ := h
          obtain ⟨hlen, hpairs, hrest⟩ := ih rest1 hrest1 pairs' hat
          refine ⟨by simp [hlen], ?_, hrest⟩
          intro q hq
          rcases List.mem_cons.1 hq with rfl | hq
          · exact ⟨randomIndex_lt r n hr.1 hr.2 hn, htn, Ne.symm htf⟩
          · exact hpairs q hq

/-- With consecutive draws of different indices no re-draw happens, and two
draws per iteration suffice for the loop to draw all its pairs. -/
theorem attempts_isSome (n count : Nat) (draws : List ℚ)
    (hc : NoRepeat n draws) (hlen : 2 * count ≤ draws.length) :
    ∃ pairs, attempts n count draws = some (pairs, draws.drop (2 * count)) := by
  induction count generalizing draws with
  | zero => exact ⟨[], by simp [attempts]⟩
  | succ k ih =>
    match draws, hc, hlen with
    | [], _, hlen => simp at hlen
    | [_], _, hlen => simp at hlen; omega
    | r :: r' :: draws, hc, hlen =>
      unfold NoRepeat at hc
      rw [List.chain'_cons] at hc
      have hne : randomIndex r' n ≠ randomIndex r n := Ne.symm hc.1
      have hc' : NoRepeat n draws := List.Chain'.tail hc.2
      have hlen' : 2 * k ≤ draws.length := by simp at hlen; omega
      have hto : drawTo n (randomIndex r n) (r' :: draws) = some (randomIndex r' n, draws) := by
        simp [drawTo, hne]
      obtain ⟨pairs, hat⟩ := ih draws hc' hlen'
      refine ⟨(randomIndex r n, randomIndex r' n) :: pairs, ?_⟩
      rw [attempts, hto]
      simp only [hat]
      have hdrop : List.drop (2 * (k + 1)) (r :: r' :: draws) = List.drop (2 * k) draws := by
        rw [show 2 * (k + 1) = 2 * k + 1 + 1 by ring]
        rfl
      rw [hdrop]

/-- The fold of at least one guarded push from the empty list is not empty. -/
theorem foldl_pushIfNew_pos (n : Nat) (pairs : List (Nat × Nat)) (hne : pairs ≠ [])
    (hp : ∀ q ∈ pairs, q.1 < n ∧ q.2 < n ∧ q.1 ≠ q.2) :
    1 ≤ (pairs.foldl (fun es q => pushIfNew es q.1 q.2) []).length := by
  match pairs, hne, hp with
  | [], hne, _ => exact absurd rfl hne
  | q :: tl, _, hp =>
    have hq := hp q (by simp)
    have htl : ∀ q' ∈ tl, q'.1 < n ∧ q'.2 < n ∧ q'.1 ≠ q'.2 :=
      fun q' hq' => hp q' (by simp [hq'])
    have hempty : EdgesOK n [] := ⟨by simp, List.Pairwise.nil⟩
    have hone : pushIfNew [] q.1 q.2 = [{ from_ := q.1, to_ := q.2 }] := by
      simp [pushIfNew]
    obtain ⟨_, hlb, _⟩ := foldl_pushIfNew_spec n tl (pushIfNew [] q.1 q.2)
      (edgesOK_pushIfNew n [] q.1 q.2 hempty hq.1 hq.2.1 hq.2.2) htl
    rw [List.foldl_cons]
    rw [hone] at hlb ⊢
    simpa using hlb

/-- What the edge generation leaves when it returns, from the empty list, for
`n` nodes and the draw `r` of the target. -/
theorem generateRandomEdges_spec (n : Nat) (hn : 0 < n) (r : ℚ) (hr0 : 0 ≤ r) (hr1 : r < 1)
    (draws : List ℚ) (hd : ∀ x ∈ draws, 0 ≤ x ∧ x < 1) (edges : List Edge) (rest : List ℚ)
    (h : generateRandomEdges n [] (r :: draws) = some (edges, rest)) :
    EdgesOK n edges ∧ 1 ≤ edges.length ∧ edges.length ≤ randomIndex r (n * 2) + 1 ∧
      randomIndex r (n * 2) + 1 ≤ 2 * n := by
  have hlt := randomIndex_lt r (n * 2) hr0 hr1 (by omega)
  rw [generateRandomEdges, generateEdges_eq_attempts] at h
  cases hat : attempts n (randomIndex r (n * 2) + 1) draws with
  | none => simp [hat] at h
  | some res =>
    obtain ⟨pairs, rest'⟩ := res
    simp only [hat, Option.map_some', Option.some.injEq, Prod.mk.injEq] at h
    obtain ⟨rfl, rfl⟩ := h
    obtain ⟨hlen, hpairs, _⟩ := attempts_spec n hn _ draws hd pairs rest' hat
    have hempty : EdgesOK n [] := ⟨by simp, List.Pairwise.nil⟩
    obtain ⟨hok, _, hub⟩ := foldl_pushIfNew_spec n pairs [] hempty hpairs
    have hne : pairs ≠ [] := by
      intro hnil
      rw [hnil] at hlen
      simp at hlen
    refine ⟨hok, foldl_pushIfNew_pos n pairs hne hpairs, ?_, by omega⟩
    simpa [hlen] using hub

/-! ## Startup: the whole method, and the states of a session -/

/-- What `initializeRandomGraph` leaves when it returns, called by the
constructor with the draw `r` of the node count first. -/
theorem initializeRandomGraph_spec (width height r : ℚ) (draws : List ℚ) (g : GraphGame)
    (rest : List ℚ)
    (hinit : initializeRandomGraph emptyGame width height (r :: draws) = some (g, rest)) :
    2 * (randomIndex r 5 + 3) ≤ draws.length ∧
    g.nodes.length = randomIndex r 5 + 3 ∧ (∀ node ∈ g.nodes, node.colorIndex = 0) ∧
    ((∀ x ∈ draws, 0 ≤ x ∧ x < 1) → 40 ≤ width → 40 ≤ height →
      ∀ node ∈ g.nodes, NodeInRange width height node) ∧
    generateRandomEdges (randomIndex r 5 + 3) [] (draws.drop (2 * (randomIndex r 5 + 3))) =
      some (g.edges, rest) ∧
    g.isDragging = false ∧ g.draggedNode = none ∧ g.highlightedNode = none := by
  rw [initializeRandomGraph] at hinit
  cases hgen : generateNodes width height (randomIndex r 5 + 3) emptyGame.nodes draws with
  | none => simp [hgen] at hinit
  | some res =>
    have hlen := generateNodes_some_length _ _ _ _ _ res hgen
    obtain ⟨added, hgen', hal, hcol, hin⟩ :=
      generateNodes_eq width height (randomIndex r 5 + 3) emptyGame.nodes draws hlen
    rw [hgen'] at hgen
    cases hgen
    simp only [hgen'] at hinit
    cases hre : generateRandomEdges (randomIndex r 5 + 3) emptyGame.edges
        (List.drop (2 * (randomIndex r 5 + 3)) draws) with
    | none => simp [hre] at hinit
    | some res' =>
      obtain ⟨edges, rest'⟩ := res'
      simp only [hre, Option.some.injEq, Prod.mk.injEq] at hinit
      obtain ⟨rfl, rfl⟩ := hinit
      refine ⟨hlen, ?_, ?_, ?_, hre, rfl, rfl, rfl⟩
      · show (emptyGame.nodes ++ added).length = _
        simp [emptyGame, hal]
      · intro node hnode
        have hnode' : node ∈ added := by simpa [emptyGame] using hnode
        exact hcol node hnode'
      · intro hd hw hh node hnode
        have hnode' : node ∈ added := by simpa [emptyGame] using hnode
        exact hin hd hw hh node hnode'

/-- The state the constructor builds is well formed, with no highlight. -/
theorem initializeRandomGraph_wellFormed (width height : ℚ) (draws : List ℚ) (g : GraphGame)
    (rest : List ℚ) (hd : ∀ x ∈ draws, 0 ≤ x ∧ x < 1)
    (hinit : initializeRandomGraph emptyGame width height draws = some (g, rest)) :
    WellFormed g ∧ 3 ≤ g.nodes.length ∧ g.nodes.length ≤ 7 ∧
      1 ≤ g.edges.length ∧ g.edges.length ≤ 2 * g.nodes.length := by
  match draws, hd, hinit with
  | [], _, hinit => simp [initializeRandomGraph] at hinit
  | r :: draws, hd, hinit =>
    have hr := hd r (by simp)
    have hd' : ∀ x ∈ draws, 0 ≤ x ∧ x < 1 := fun x hx => hd x (by simp [hx])
    obtain ⟨_, hnodes, _, _, hedges, _, _, hhl⟩ :=
      initializeRandomGraph_spec width height r draws g rest hinit
    have hlt := randomIndex_lt r 5 hr.1 hr.2 (by decide)
    have hdrop : ∀ x ∈ draws.drop (2 * (randomIndex r 5 + 3)), 0 ≤ x ∧ x < 1 :=
      fun x hx => hd' x (List.mem_of_mem_drop hx)
    match hdr : draws.drop (2 * (randomIndex r 5 + 3)), hdrop, hedges with
    | [], _, hedges => simp [generateRandomEdges] at hedges
    | r1 :: edgeDraws, hdrop, hedges =>
      have hr1 := hdrop r1 (by simp)
      obtain ⟨hok, hone, hle, hec⟩ := generateRandomEdges_spec (randomIndex r 5 + 3) (by omega)
        r1 hr1.1 hr1.2 edgeDraws (fun x hx => hdrop x (by simp [hx])) g.edges rest hedges
      refine ⟨⟨?_, ?_, hok.2, ?_⟩, by omega, by omega, hone, by omega⟩
      · intro e he
        exact (hok.1 e he).2.2
      · intro e he
        rw [hnodes]
        exact ⟨(hok.1 e he).1, (hok.1 e he).2.1⟩
      · intro k hk
        rw [hhl] at hk
        cases hk

/-- Every state of a session is well formed: its edges join two different
existing nodes, no two of them join the same pair, and the highlight is `null`
or a node index. -/
theorem reachable_wellFormed (g : GraphGame) (h : Reachable g) : WellFormed g := by
  induction h with
  | init width height draws g rest hd hinit =>
    exact (initializeRandomGraph_wellFormed width height draws g rest hd hinit).1
  | step g ev _ ih => exact wellFormed_dispatch g ev ih

/-! ## C4 and C13: a click on a node, in the states of a session -/

/-- C4.  In every state of a session, and in every state whose edge endpoints
are node indices, when the highlighted node is `a`, a mouse down at a point
that hits `a` returns the same state with the highlight set to `null` (edge
list and node list unchanged); and from a state without self-loop no sequence
of pointer events ever produces an edge with `from = to`. -/
theorem reclick_toggles_highlight_off :
    (∀ (g : GraphGame) (a : Nat) (p : Pos), Reachable g ∨ ValidEndpoints g →
      g.highlightedNode = some a → findNodeAtPosition g p = some a →
      handleMouseDown g p = .ok { g with highlightedNode := none }) ∧
    (∀ (g : GraphGame) (evs : List Event), NoSelfLoop g → NoSelfLoop (run g evs)) := by
  constructor
  · intro g a p hg hh hf
    have hv : ValidEndpoints g := by
      rcases hg with hr | hv
      · exact (reachable_wellFormed g hr).2.1
      · exact hv
    rw [handleMouseDown_eq g p hv]
    simp only [hf, hh, addEdge, ne_eq, not_true_eq_false, if_false]
  · exact noSelfLoop_run

/-- C4 on a state with two joined nodes, node 0 highlighted and clicked again. -/
theorem reclick_toggles_highlight_off_witness :
    handleMouseDown ⟨[⟨0, 0, 0⟩, ⟨100, 0, 0⟩], [⟨0, 1⟩], false, none, some 0⟩ ⟨0, 0⟩ =
      .ok ⟨[⟨0, 0, 0⟩, ⟨100, 0, 0⟩], [⟨0, 1⟩], false, none, none⟩ :=
  reclick_toggles_highlight_off.1 ⟨[⟨0, 0, 0⟩, ⟨100, 0, 0⟩], [⟨0, 1⟩], false, none, some 0⟩
    0 ⟨0, 0⟩ (Or.inr (by decide)) rfl
    (by norm_num [findNodeAtPosition, findNodeLoop, nodeHit, hypotLe, nodeRadius])

/-- C13.  In every state of a session, and in every state whose edge
endpoints are node indices, when the highlight is `null`, a mouse down at a
point that hits node `i` sets `highlightedNode = i`, `isDragging = true` and
`draggedNode = i` and leaves the node list and the edge list unchanged,
whatever the edge hit test gives at that point. -/
theorem idle_click_selects_and_drags (g : GraphGame) (p : Pos) (i : Nat)
    (hg : Reachable g ∨ ValidEndpoints g) (hh : g.highlightedNode = none)
    (hn : findNodeAtPosition g p = some i) :
    handleMouseDown g p =
      .ok { g with highlightedNode := some i, isDragging := true, draggedNode := some i } := by
  have hv : ValidEndpoints g := by
    rcases hg with hr | hv
    · exact (reachable_wellFormed g hr).2.1
    · exact hv
  rw [handleMouseDown_eq g p hv]
  simp only [hn, hh]

/-- C13 on a click at the end (0,0) of an edge: the point is within 10 of the
edge as well, and the node is selected. -/
theorem idle_click_selects_and_drags_witness :
    findEdgeAtPosition ⟨[⟨0, 0, 0⟩, ⟨100, 0, 0⟩], [⟨0, 1⟩], false, none, none⟩ ⟨0, 0⟩
      = .ok (some 0) ∧
    handleMouseDown ⟨[⟨0, 0, 0⟩, ⟨100, 0, 0⟩], [⟨0, 1⟩], false, none, none⟩ ⟨0, 0⟩ =
      .ok ⟨[⟨0, 0, 0⟩, ⟨100, 0, 0⟩], [⟨0, 1⟩], true, some 0, some 0⟩ :=
  ⟨by norm_num [findEdgeAtPosition, findEdgeLoop, edgeHit, closestPoint, hypotLt,
      edgeTolerance],
   idle_click_selects_and_drags ⟨[⟨0, 0, 0⟩, ⟨100, 0, 0⟩], [⟨0, 1⟩], false, none, none⟩
    ⟨0, 0⟩ 0 (Or.inr (by decide)) rfl
    (by norm_num [findNodeAtPosition, findNodeLoop, nodeHit, hypotLe, nodeRadius])⟩

/-! ## C19: startup node generation -/

/-- C19.  For every draw `r` in [0,1) the node count `floor(5r) + 3` lies in
{3,…,7}.  Whenever `initializeRandomGraph`, called by the constructor, returns,
the state has exactly that many nodes, each with `colorIndex` 0, and on a
canvas at least 40 wide and 40 high, with draws in [0,1), each node has
`20 ≤ x ≤ width − 20` and `20 ≤ y ≤ height − 20`.  The method does return when
two draws per node are there for the positions and the draws of the edge loop
give different indices one after the other, two per attempt. -/
theorem node_generation_in_range (r : ℚ) (hr0 : 0 ≤ r) (hr1 : r < 1) :
    3 ≤ randomIndex r 5 + 3 ∧ randomIndex r 5 + 3 ≤ 7 ∧
    (∀ (width height : ℚ) (draws : List ℚ) (g : GraphGame) (rest : List ℚ),
      initializeRandomGraph emptyGame width height (r :: draws) = some (g, rest) →
      g.nodes.length = randomIndex r 5 + 3 ∧ (∀ n ∈ g.nodes, n.colorIndex = 0) ∧
      ((∀ x ∈ draws, 0 ≤ x ∧ x < 1) → 40 ≤ width → 40 ≤ height →
        ∀ n ∈ g.nodes, 20 ≤ n.x ∧ n.x ≤ width - 20 ∧ 20 ≤ n.y ∧ n.y ≤ height - 20)) ∧
    (∀ (width height : ℚ) (nodeDraws : List ℚ) (r1 : ℚ) (edgeDraws : List ℚ),
      nodeDraws.length = 2 * (randomIndex r 5 + 3) →
      NoRepeat (randomIndex r 5 + 3) edgeDraws →
      2 * (randomIndex r1 ((randomIndex r 5 + 3) * 2) + 1) ≤ edgeDraws.length →
      ∃ g rest, initializeRandomGraph emptyGame width height
        (r :: (nodeDraws ++ r1 :: edgeDraws)) = some (g, rest)) := by
  have hlt := randomIndex_lt r 5 hr0 hr1 (by decide)
  refine ⟨by omega, by omega, ?_, ?_⟩
  · intro width height draws g rest hinit
    obtain ⟨_, hlen, hcol, hin, _⟩ := initializeRandomGraph_spec width height r draws g rest hinit
    refine ⟨hlen, hcol, ?_⟩
    intro hd hw hh n hn
    exact (hin hd hw hh n hn).2
  · intro width height nodeDraws r1 edgeDraws hnd hc hlen
    have hlen' : 2 * (randomIndex r 5 + 3) ≤ (nodeDraws ++ r1 :: edgeDraws).length := by
      simp only [List.length_append]
      omega
    obtain ⟨added, hgen, _⟩ := generateNodes_eq width height (randomIndex r 5 + 3)
      emptyGame.nodes (nodeDraws ++ r1 :: edgeDraws) hlen'
    rw [List.drop_left' hnd] at hgen
    obtain ⟨pairs, hat⟩ := attempts_isSome (randomIndex r 5 + 3) _ edgeDraws hc hlen
    have hre : generateRandomEdges (randomIndex r 5 + 3) emptyGame.edges (r1 :: edgeDraws) =
        some (pairs.foldl (fun es q => pushIfNew es q.1 q.2) emptyGame.edges,
          edgeDraws.drop (2 * (randomIndex r1 ((randomIndex r 5 + 3) * 2) + 1))) := by
      rw [generateRandomEdges, generateEdges_eq_attempts, hat]
      rfl
    refine ⟨{ emptyGame with
        nodes := emptyGame.nodes ++ added,
        edges := pairs.foldl (fun es q => pushIfNew es q.1 q.2) emptyGame.edges },
      edgeDraws.drop (2 * (randomIndex r1 ((randomIndex r 5 + 3) * 2) + 1)), ?_⟩
    rw [initializeRandomGraph]
    simp only [hgen, hre]

/-- C19 for the draw 1/2, which gives five nodes, on a 400 by 400 canvas: the
method returns, and the state has five nodes of colour 0 in range. -/
theorem node_generation_in_range_witness :
    ∃ g rest, initializeRandomGraph emptyGame 400 400
        (1/2 :: ([0, 1/2, 1/4, 3/4, 1/2, 0, 3/4, 1/4, 1/2, 1/2] ++
          1/4 :: [0, 1/2, 1/4, 3/4, 0, 1/2])) = some (g, rest) ∧
      g.nodes.length = 5 ∧
      ∀ n ∈ g.nodes, 20 ≤ n.x ∧ n.x ≤ 400 - 20 ∧ 20 ≤ n.y ∧ n.y ≤ 400 - 20 := by
  have hcount : randomIndex (1/2) 5 + 3 = 5 := by
    rw [randomIndex_eq (1/2) 5 2 (by norm_num) (by norm_num)]
  have i0 : randomIndex 0 5 = 0 := randomIndex_eq 0 5 0 (by norm_num) (by norm_num)
  have i1 : randomIndex (1/4) 5 = 1 := randomIndex_eq (1/4) 5 1 (by norm_num) (by norm_num)
  have i2 : randomIndex (1/2) 5 = 2 := randomIndex_eq (1/2) 5 2 (by norm_num) (by norm_num)
  have i3 : randomIndex (3/4) 5 = 3 := randomIndex_eq (3/4) 5 3 (by norm_num) (by norm_num)
  have hec : randomIndex (1/4) (5 * 2) = 2 := randomIndex_eq (1/4) (5 * 2) 2 (by norm_num)
    (by norm_num)
  have hthm := node_generation_in_range (1/2) (by norm_num) (by norm_num)
  obtain ⟨g, rest, hinit⟩ := hthm.2.2.2 400 400 [0, 1/2, 1/4, 3/4, 1/2, 0, 3/4, 1/4, 1/2, 1/2]
    (1/4) [0, 1/2, 1/4, 3/4, 0, 1/2] (by rw [hcount]; rfl)
    (by rw [hcount]; unfold NoRepeat
        simp only [List.chain'_cons, List.chain'_singleton, i0, i1, i2, i3]; decide)
    (by rw [hcount, hec]; simp)
  obtain ⟨hlen, _, hin⟩ := hthm.2.2.1 400 400 _ g rest hinit
  exact ⟨g, rest, hinit, by rw [hlen, hcount],
    hin (by norm_num) (by norm_num) (by norm_num)⟩

/-! ## C18: startup edge generation -/

/-- C18.  For a node count `n` in {3,…,7} and a draw `r` in [0,1), the target
`edgeCount = floor(r·2n) + 1` lies in {1,…,2n}.  Starting from the constructor's
empty edge list, the edge generation is the fold of the guarded push of lines
54-58 over the pairs `(from, to)` its iterations draw; when all pairs are drawn
(every re-draw loop has left), with draws in [0,1), there are exactly
`edgeCount` of them, each of two different indices below `n`, and the edge list
has at least 1 and at most `edgeCount` edges, every endpoint below `n`, no edge
with `from = to` and no two edges joining the same pair in either orientation.
The generation does return when consecutive draws give different indices and
two draws per attempt are left.  In the state `initializeRandomGraph` returns,
`n` is the number of nodes it created: every edge joins two of them. -/
theorem edge_generation_bounded (n : Nat) (h3 : 3 ≤ n) (_h7 : n ≤ 7) (r : ℚ)
    (hr0 : 0 ≤ r) (hr1 : r < 1) :
    1 ≤ randomIndex r (n * 2) + 1 ∧ randomIndex r (n * 2) + 1 ≤ 2 * n ∧
    (∀ draws : List ℚ, generateRandomEdges n [] (r :: draws) =
      (attempts n (randomIndex r (n * 2) + 1) draws).map
        (fun pr => (pr.1.foldl (fun es q => pushIfNew es q.1 q.2) [], pr.2))) ∧
    (∀ (draws : List ℚ) (pairs : List (Nat × Nat)) (rest : List ℚ),
      (∀ x ∈ draws, 0 ≤ x ∧ x < 1) →
      attempts n (randomIndex r (n * 2) + 1) draws = some (pairs, rest) →
      pairs.length = randomIndex r (n * 2) + 1 ∧
      (∀ q ∈ pairs, q.1 < n ∧ q.2 < n ∧ q.1 ≠ q.2) ∧
      1 ≤ (pairs.foldl (fun es q => pushIfNew es q.1 q.2) []).length ∧
      (pairs.foldl (fun es q => pushIfNew es q.1 q.2) []).length ≤ randomIndex r (n * 2) + 1 ∧
      (∀ e ∈ pairs.foldl (fun es q => pushIfNew es q.1 q.2) [],
        e.from_ < n ∧ e.to_ < n ∧ e.from_ ≠ e.to_) ∧
      (pairs.foldl (fun es q => pushIfNew es q.1 q.2) []).Pairwise
        (fun e f => ¬ SamePair e f)) ∧
    (∀ draws : List ℚ, NoRepeat n draws → 2 * (randomIndex r (n * 2) + 1) ≤ draws.length →
      ∃ edges rest, generateRandomEdges n [] (r :: draws) = some (edges, rest)) ∧
    (∀ (width height : ℚ) (draws : List ℚ) (g : GraphGame) (rest : List ℚ),
      (∀ x ∈ draws, 0 ≤ x ∧ x < 1) →
      initializeRandomGraph emptyGame width height draws = some (g, rest) →
      3 ≤ g.nodes.length ∧ g.nodes.length ≤ 7 ∧
      (∀ e ∈ g.edges, e.from_ < g.nodes.length ∧ e.to_ < g.nodes.length ∧ e.from_ ≠ e.to_) ∧
      g.edges.Pairwise (fun e f => ¬ SamePair e f) ∧
      1 ≤ g.edges.length ∧ g.edges.length ≤ 2 * g.nodes.length) := by
  have hn : 0 < n := by omega
  have hlt := randomIndex_lt r (n * 2) hr0 hr1 (by omega)
  refine ⟨by omega, by omega, ?_, ?_, ?_, ?_⟩
  · intro draws
    rw [generateRandomEdges, generateEdges_eq_attempts]
  · intro draws pairs rest hd hat
    obtain ⟨hlen, hpairs, _⟩ := attempts_spec n hn _ draws hd pairs rest hat
    have hempty : EdgesOK n [] := ⟨by simp, List.Pairwise.nil⟩
    obtain ⟨hok, _, hub⟩ := foldl_pushIfNew_spec n pairs [] hempty hpairs
    have hne : pairs ≠ [] := by
      intro hnil
      rw [hnil] at hlen
      simp at hlen
    refine ⟨hlen, hpairs, foldl_pushIfNew_pos n pairs hne hpairs, ?_, hok.1, hok.2⟩
    simpa [hlen] using hub
  · intro draws hc hlen
    obtain ⟨pairs, hat⟩ := attempts_isSome n _ draws hc hlen
    refine ⟨pairs.foldl (fun es q => pushIfNew es q.1 q.2) [],
      draws.drop (2 * (randomIndex r (n * 2) + 1)), ?_⟩
    rw [generateRandomEdges, generateEdges_eq_attempts, hat]
    rfl
  · intro width height draws g rest hd hinit
    obtain ⟨hw, hn3, hn7, hone, hle⟩ :=
      initializeRandomGraph_wellFormed width height draws g rest hd hinit
    refine ⟨hn3, hn7, ?_, hw.2.2.1, hone, hle⟩
    intro e he
    exact ⟨(hw.2.1 e he).1, (hw.2.1 e he).2, hw.1 e he⟩

/-- C18 for three nodes and the draw 1/2 of the target, which gives four
attempts: the pairs drawn are (0,1) after one re-draw, (1,0), (2,1) and (0,2),
and the second is refused as the reverse of the first. -/
theorem edge_generation_bounded_witness :
    generateRandomEdges 3 [] [1/2, 0, 0, 1/2, 1/2, 0, 3/4, 1/2, 0, 3/4] =
      some ([⟨0, 1⟩, ⟨2, 1⟩, ⟨0, 2⟩], []) ∧
    ([(0, 1), (1, 0), (2, 1), (0, 2)] : List (Nat × Nat)).length =
      randomIndex (1/2) (3 * 2) + 1 := by
  have i0 : randomIndex 0 3 = 0 := randomIndex_eq 0 3 0 (by norm_num) (by norm_num)
  have i1 : randomIndex (1/2) 3 = 1 := randomIndex_eq (1/2) 3 1 (by norm_num) (by norm_num)
  have i2 : randomIndex (3/4) 3 = 2 := randomIndex_eq (3/4) 3 2 (by norm_num) (by norm_num)
  have hec : randomIndex (1/2) (3 * 2) + 1 = 4 := by
    rw [randomIndex_eq (1/2) (3 * 2) 3 (by norm_num) (by norm_num)]
  have hat : attempts 3 (randomIndex (1/2) (3 * 2) + 1) [0, 0, 1/2, 1/2, 0, 3/4, 1/2, 0, 3/4] =
      some ([(0, 1), (1, 0), (2, 1), (0, 2)], []) := by
    have i1' : randomIndex 2⁻¹ 3 = 1 := by simpa using i1
    rw [hec]
    simp [attempts, drawTo, i0, i1', i2]
  have hthm := edge_generation_bounded 3 (by decide) (by decide) (1/2) (by norm_num)
    (by norm_num)
  refine ⟨?_, (hthm.2.2.2.1 _ _ _ (by norm_num) hat).1⟩
  rw [hthm.2.2.1, hat]
  decide

end GraphTheNode
